import Mathlib

/-!
mcp-openapi: the `get_api_details` lookup and projection.

A shallow embedding of `src/main.go` (`GetAPIDetails`, lines 90-194, and
`resolveOpenAPIPath`, lines 66-88) and the properties of the
lookup-and-projection engine.

Conventions of the embedding.

* A Go pointer, slice or interface that the code compares with `nil` is an
  `Option` (`none` is `nil`).  A pointer the code dereferences without a test
  (the `*PathItem` values of the path map, the `*ParameterRef` elements of a
  parameter slice, the `*ResponseRef` values of a response map) is a plain
  value: a nil there makes the Go code stop with a nil dereference, which the
  embedding leaves out.
* A Go map is a `GoMap`: its entries, in a list.  A real map holds every key
  once (`GoMap.WF`).  A `range` over a map visits the entries in an order the
  runtime picks; that order is the `RangeOrder` argument, and a statement
  "for every iteration order" quantifies over every `RangeOrder` that is
  `Valid` (visits a rearrangement of the entries).
* The library types whose contents the program never reads (`openapi3.Schema`,
  `openapi3.MediaType`, `openapi3.Response`) are the type parameters
  `σ`, `μ`, `ρ`.
* `json.MarshalIndent` is a parameter of `GetAPIDetails`; `MarshalIndent` is
  a model of it for `APIDetails`, from the struct tags of lines 41-64, with the
  encoders of the library values as parameters.
* `os.Stat` and `filepath.Join` are parameters of `resolveOpenAPIPath`; the
  `Resolution` it returns also lists the names it passed to `os.Stat`.
-/

namespace McpOpenAPI

/-! ## Go containers -/

/-- A Go `map[string]ν`, as the list of its entries. -/
structure GoMap (ν : Type) where
  entries : List (String × ν)
deriving DecidableEq, Repr

namespace GoMap

variable {ν : Type}

/-- The keys of the entries. -/
def keys (m : GoMap ν) : List String :=
  m.entries.map Prod.fst

/-- A real Go map holds every key once. -/
def WF (m : GoMap ν) : Prop :=
  m.keys.Nodup

instance (m : GoMap ν) : Decidable m.WF :=
  inferInstanceAs (Decidable (m.keys.Nodup))

/-- The result of `make(map[string]ν)`. -/
def make : GoMap ν :=
  ⟨[]⟩

/-- Entry lookup on a list of entries: the first entry with key `k`. -/
def getEntries (k : String) : List (String × ν) → Option ν
  | [] => none
  | (k', v) :: rest => if k' = k then some v else getEntries k rest

/-- The Go expression `m[k]` (with `none` for a missing key). -/
def get? (m : GoMap ν) (k : String) : Option ν :=
  getEntries k m.entries

/-- Assignment on a list of entries: replace the entry of `k`, or add one. -/
def setEntries (k : String) (v : ν) : List (String × ν) → List (String × ν)
  | [] => [(k, v)]
  | (k', v') :: rest =>
    if k' = k then (k, v) :: rest else (k', v') :: setEntries k v rest

/-- The Go statement `m[k] = v`. -/
def set (m : GoMap ν) (k : String) (v : ν) : GoMap ν :=
  ⟨setEntries k v m.entries⟩

/-- Two maps with the same entries, whatever the order they are listed in. -/
def Same (m₁ m₂ : GoMap ν) : Prop :=
  m₁.entries.Perm m₂.entries

end GoMap

/-- Go `append(s, x)` on a slice; `none` is the nil slice. -/
def appendSlice {α : Type} (s : Option (List α)) (x : α) : Option (List α) :=
  match s with
  | none => some [x]
  | some xs => some (xs ++ [x])

/-! ## The description model (`openapi3`) -/

/-- Modelled from the spec: `openapi3.SchemaRef` is declared in the kin-openapi
library; the code reads its `Value` pointer. -/
structure SchemaRef (σ : Type) where
  Ref : String
  Value : Option σ
deriving DecidableEq, Repr

/-- Modelled from the spec: `openapi3.Parameter` is declared in the kin-openapi
library; the fields are those `GetAPIDetails` reads. -/
structure Parameter (σ : Type) where
  Name : String
  In : String
  Description : String
  Required : Bool
  Schema : Option (SchemaRef σ)
deriving DecidableEq, Repr

/-- Modelled from the spec: `openapi3.ParameterRef` is declared in the
kin-openapi library; the code reads its `Value` pointer. -/
structure ParameterRef (σ : Type) where
  Ref : String
  Value : Option (Parameter σ)
deriving DecidableEq, Repr

/-- Modelled from the spec: `openapi3.RequestBody` is declared in the
kin-openapi library; `Content` is a `map[string]*MediaType`. -/
structure RequestBody (μ : Type) where
  Description : String
  Required : Bool
  Content : GoMap μ
deriving DecidableEq, Repr

/-- Modelled from the spec: `openapi3.RequestBodyRef` is declared in the
kin-openapi library; the code reads its `Value` pointer. -/
structure RequestBodyRef (μ : Type) where
  Ref : String
  Value : Option (RequestBody μ)
deriving DecidableEq, Repr

/-- Modelled from the spec: `openapi3.ResponseRef` is declared in the
kin-openapi library; the code reads its `Value` pointer. -/
structure ResponseRef (ρ : Type) where
  Ref : String
  Value : Option ρ
deriving DecidableEq, Repr

/-- Modelled from the spec: `openapi3.Operation` is declared in the kin-openapi
library; the fields are those `GetAPIDetails` reads.  `Parameters` is a slice,
`RequestBody` and `Responses` are pointers; `Responses` holds what
`Responses.Map()` returns. -/
structure Operation (σ μ ρ : Type) where
  Summary : String
  Description : String
  OperationID : String
  Parameters : Option (List (ParameterRef σ))
  RequestBody : Option (RequestBodyRef μ)
  Responses : Option (GoMap (ResponseRef ρ))
deriving DecidableEq, Repr

/-- Modelled from the spec: `openapi3.PathItem` is declared in the kin-openapi
library: one optional operation per verb, and data shared by the verbs
(`Summary`, `Description`, `Parameters`). -/
structure PathItem (σ μ ρ : Type) where
  Summary : String
  Description : String
  Get : Option (Operation σ μ ρ)
  Post : Option (Operation σ μ ρ)
  Put : Option (Operation σ μ ρ)
  Delete : Option (Operation σ μ ρ)
  Patch : Option (Operation σ μ ρ)
  Head : Option (Operation σ μ ρ)
  Options : Option (Operation σ μ ρ)
  Trace : Option (Operation σ μ ρ)
  Parameters : Option (List (ParameterRef σ))
deriving DecidableEq, Repr

/-- Modelled from the spec: `openapi3.T` is declared in the kin-openapi
library; `Paths` holds what `doc.Paths.Map()` returns. -/
structure T (σ μ ρ : Type) where
  Paths : GoMap (PathItem σ μ ρ)
deriving DecidableEq, Repr

/-- The `OpenAPIServer` of `main.go`, lines 16-18. -/
structure OpenAPIServer (σ μ ρ : Type) where
  doc : T σ μ ρ
deriving DecidableEq, Repr

/-! ## The projection types of `main.go` -/

/-- `ParameterDetails`, lines 52-58.  `Schema` is a Go `any`. -/
structure ParameterDetails (σ : Type) where
  Name : String
  In : String
  Required : Bool
  Description : String
  Schema : Option σ
deriving DecidableEq, Repr

/-- `RequestBodyDetails`, lines 60-64.  `Content` is a map that may be nil. -/
structure RequestBodyDetails (μ : Type) where
  Description : String
  Required : Bool
  Content : Option (GoMap μ)
deriving DecidableEq, Repr

/-- `APIDetails`, lines 41-50.  `Parameters` is a slice, `RequestBody` a
pointer, `Responses` a map that may be nil. -/
structure APIDetails (σ μ ρ : Type) where
  OperationID : String
  Method : String
  Path : String
  Summary : String
  Description : String
  Parameters : Option (List (ParameterDetails σ))
  RequestBody : Option (RequestBodyDetails μ)
  Responses : Option (GoMap ρ)
deriving DecidableEq, Repr

/-- `GetAPIDetailsParams`, lines 37-39. -/
structure GetAPIDetailsParams where
  OperationID : String
deriving DecidableEq, Repr

/-- Modelled from the spec: `mcp.TextContent` is declared in the MCP SDK; the
code sets its `Text`. -/
structure TextContent where
  Text : String
deriving DecidableEq, Repr

/-- Modelled from the spec: `mcp.CallToolResultFor` is declared in the MCP SDK;
the code sets `Content` and leaves `IsError` at its zero value. -/
structure CallToolResult where
  Content : List TextContent
  IsError : Bool
deriving DecidableEq, Repr

/-! ## Iteration order of `range` over a map -/

/-- The order in which the `range` statements of one call visit their maps:
`paths` for line 97, `operations` for line 109 (one map per path), `content`
for line 144, `responses` for line 151. -/
structure RangeOrder (σ μ ρ : Type) where
  paths : GoMap (PathItem σ μ ρ) → List (String × PathItem σ μ ρ)
  operations : String → GoMap (Option (Operation σ μ ρ)) →
    List (String × Option (Operation σ μ ρ))
  content : GoMap μ → List (String × μ)
  responses : GoMap (ResponseRef ρ) → List (String × ResponseRef ρ)

namespace RangeOrder

variable {σ μ ρ : Type}

/-- A `range` visits every entry of its map once: each order is a
rearrangement of the entries. -/
def Valid (r : RangeOrder σ μ ρ) : Prop :=
  (∀ m, (r.paths m).Perm m.entries) ∧
  (∀ p m, (r.operations p m).Perm m.entries) ∧
  (∀ m, (r.content m).Perm m.entries) ∧
  (∀ m, (r.responses m).Perm m.entries)

/-- The order that visits every map as its entries are listed. -/
def listed : RangeOrder σ μ ρ where
  paths := GoMap.entries
  operations := fun _ => GoMap.entries
  content := GoMap.entries
  responses := GoMap.entries

/-- The order that visits every map backwards. -/
def reversed : RangeOrder σ μ ρ where
  paths := fun m => m.entries.reverse
  operations := fun _ m => m.entries.reverse
  content := fun m => m.entries.reverse
  responses := fun m => m.entries.reverse

end RangeOrder

/-! ## `GetAPIDetails` -/

section Code

variable {σ μ ρ : Type}

/-- The `operations` map literal of lines 98-107. -/
def operations (pathItem : PathItem σ μ ρ) : GoMap (Option (Operation σ μ ρ)) :=
  ⟨[("GET", pathItem.Get),
    ("POST", pathItem.Post),
    ("PUT", pathItem.Put),
    ("DELETE", pathItem.Delete),
    ("PATCH", pathItem.Patch),
    ("HEAD", pathItem.Head),
    ("OPTIONS", pathItem.Options),
    ("TRACE", pathItem.Trace)]⟩

/-- Lines 122-131: the `paramDetails` built from a resolved parameter. -/
def paramDetails (param : Parameter σ) : ParameterDetails σ :=
  { Name := param.Name
    In := param.In
    Required := param.Required
    Description := param.Description
    Schema :=
      match param.Schema with
      | none => none
      | some schemaRef =>
        match schemaRef.Value with
        | none => none
        | some value => some value }

/-- Lines 119-135: the `Parameters` field after the loop over
`operation.Parameters`, starting from the nil slice. -/
def projectParameters (parameters : Option (List (ParameterRef σ))) :
    Option (List (ParameterDetails σ)) :=
  match parameters with
  | none => none
  | some paramRefs =>
    paramRefs.foldl
      (fun acc paramRef =>
        match paramRef.Value with
        | none => acc
        | some param => appendSlice acc (paramDetails param))
      none

/-- Lines 137-147: the `RequestBody` field. -/
def projectRequestBody (r : RangeOrder σ μ ρ) (requestBody : Option (RequestBodyRef μ)) :
    Option (RequestBodyDetails μ) :=
  match requestBody with
  | none => none
  | some requestBodyRef =>
    match requestBodyRef.Value with
    | none => none
    | some reqBody =>
      some
        { Description := reqBody.Description
          Required := reqBody.Required
          Content :=
            some ((r.content reqBody.Content).foldl
              (fun content entry => content.set entry.1 entry.2) GoMap.make) }

/-- Lines 149-156: the `Responses` field. -/
def projectResponses (r : RangeOrder σ μ ρ) (responses : Option (GoMap (ResponseRef ρ))) :
    Option (GoMap ρ) :=
  match responses with
  | none => none
  | some m =>
    some ((r.responses m).foldl
      (fun acc entry =>
        match entry.2.Value with
        | none => acc
        | some value => acc.set entry.1 value)
      GoMap.make)

/-- Lines 111-156: the `APIDetails` built for a matching operation. -/
def project (r : RangeOrder σ μ ρ) (path method : String) (operation : Operation σ μ ρ) :
    APIDetails σ μ ρ :=
  { OperationID := operation.OperationID
    Method := method
    Path := path
    Summary := operation.Summary
    Description := operation.Description
    Parameters := projectParameters operation.Parameters
    RequestBody := projectRequestBody r operation.RequestBody
    Responses := projectResponses r operation.Responses }

/-- Lines 109-160: the inner loop over the entries of `operations`, in the
order they are visited; it stops at the first match. -/
def scanOperations (r : RangeOrder σ μ ρ) (operationID path : String) :
    List (String × Option (Operation σ μ ρ)) → Option (APIDetails σ μ ρ)
  | [] => none
  | (method, operation) :: rest =>
    match operation with
    | none => scanOperations r operationID path rest
    | some op =>
      if op.OperationID = operationID then some (project r path method op)
      else scanOperations r operationID path rest

/-- Lines 97-164: the outer loop over the entries of the path map, in the order
they are visited; it stops after the first path with a match. -/
def scanPaths (r : RangeOrder σ μ ρ) (operationID : String) :
    List (String × PathItem σ μ ρ) → Option (APIDetails σ μ ρ)
  | [] => none
  | (path, pathItem) :: rest =>
    match scanOperations r operationID path (r.operations path (operations pathItem)) with
    | some details => some details
    | none => scanPaths r operationID rest

/-- Lines 95-164: the value of the local variable `apiDetails` when the loops
are over. -/
def GetAPIDetails.apiDetails (r : RangeOrder σ μ ρ) (s : OpenAPIServer σ μ ρ)
    (params : GetAPIDetailsParams) : Option (APIDetails σ μ ρ) :=
  scanPaths r params.OperationID (r.paths s.doc.Paths)

/-- The result with one text item that every `return` of `GetAPIDetails`
builds. -/
def textResult (text : String) : CallToolResult :=
  { Content := [{ Text := text }], IsError := false }

/-- `GetAPIDetails`, lines 90-194: the returned pair (result pointer, error).
`marshalIndent d` is the outcome of `json.MarshalIndent(d, "", "  ")`: the
encoded text, or the message of the error. -/
def GetAPIDetails (r : RangeOrder σ μ ρ)
    (marshalIndent : APIDetails σ μ ρ → Except String String)
    (s : OpenAPIServer σ μ ρ) (params : GetAPIDetailsParams) :
    Option CallToolResult × Option String :=
  match GetAPIDetails.apiDetails r s params with
  | none =>
    (some (textResult
      ("Operation with ID '" ++ params.OperationID ++
        "' not found in the OpenAPI specification")), none)
  | some details =>
    match marshalIndent details with
    | Except.error err =>
      (some (textResult ("Failed to marshal API details: " ++ err)), none)
    | Except.ok jsonData => (some (textResult jsonData), none)

/-! ## Vocabulary of the properties -/

/-- Operation `op` is present at verb `method` of the path `path` of the
document and its `operationId` is `id`. -/
def Carries (doc : T σ μ ρ) (id path method : String) (op : Operation σ μ ρ) : Prop :=
  ∃ pathItem, (path, pathItem) ∈ doc.Paths.entries ∧
    (method, some op) ∈ (operations pathItem).entries ∧ op.OperationID = id

/-- Whether an entry of an `operations` map holds an operation with
`operationId` `id`. -/
def holdsID (id : String) (entry : String × Option (Operation σ μ ρ)) : Bool :=
  match entry.2 with
  | none => false
  | some op => decide (op.OperationID = id)

/-- The operations of the document with `operationId` `id`, each with its path
and verb, as the document lists them. -/
def carriers (doc : T σ μ ρ) (id : String) : List (String × String × Operation σ μ ρ) :=
  doc.Paths.entries.flatMap fun e =>
    (operations e.2).entries.filterMap fun o =>
      match o.2 with
      | none => none
      | some op => if op.OperationID = id then some (e.1, o.1, op) else none

/-- The response map and the content map of the operation are real maps. -/
def Operation.WF (op : Operation σ μ ρ) : Prop :=
  (∀ m ∈ op.Responses, m.WF) ∧
  (∀ ref ∈ op.RequestBody, ∀ body ∈ ref.Value, body.Content.WF)

instance (op : Operation σ μ ρ) : Decidable op.WF :=
  inferInstanceAs (Decidable (_ ∧ _))

/-- Every map of the document is a real map: the path map, and the response
and content maps of every present operation. -/
def T.WF (doc : T σ μ ρ) : Prop :=
  doc.Paths.WF ∧
  ∀ e ∈ doc.Paths.entries, ∀ o ∈ (operations e.2).entries, ∀ op ∈ o.2, op.WF

instance (doc : T σ μ ρ) : Decidable doc.WF :=
  inferInstanceAs (Decidable (_ ∧ _))

/-- Two request-body projections with the same fields: `Description` and
`Required` equal, `Content` both nil or both holding the same entries. -/
def RequestBodyDetails.Same (a b : RequestBodyDetails μ) : Prop :=
  a.Description = b.Description ∧ a.Required = b.Required ∧
    Option.Rel GoMap.Same a.Content b.Content

/-- Two projections that are identical field for field; a map-valued field is
identical when both are nil or both hold the same entries. -/
def APIDetails.Same (a b : APIDetails σ μ ρ) : Prop :=
  a.OperationID = b.OperationID ∧ a.Method = b.Method ∧ a.Path = b.Path ∧
    a.Summary = b.Summary ∧ a.Description = b.Description ∧
    a.Parameters = b.Parameters ∧
    Option.Rel RequestBodyDetails.Same a.RequestBody b.RequestBody ∧
    Option.Rel GoMap.Same a.Responses b.Responses

/-- The slice that repeated `append` builds from the nil slice: nil when
nothing was appended. -/
def sliceOf {α : Type} : List α → Option (List α)
  | [] => none
  | x :: xs => some (x :: xs)

/-- The parameters of a slice of references whose reference is resolved
(`Value` not nil), in the order of the slice. -/
def resolved (paramRefs : List (ParameterRef σ)) : List (Parameter σ) :=
  paramRefs.filterMap fun paramRef => paramRef.Value

/-- Two visited entries of path maps with the same path key and the same
eight verb operations; everything else attached to the path items may
differ. -/
def SameOperations (a b : String × PathItem σ μ ρ) : Prop :=
  a.1 = b.1 ∧ operations a.2 = operations b.2

/-- The operation `op` is the one that the path item holds for the verb named
`method`: the data model of the description, one optional operation for each
verb of the fixed set. It is stated on the fields of the path item, not
through the `operations` map that the code builds. -/
def PresentAt (pathItem : PathItem σ μ ρ) (method : String) (op : Operation σ μ ρ) : Prop :=
  (method = "GET" ∧ pathItem.Get = some op) ∨
  (method = "POST" ∧ pathItem.Post = some op) ∨
  (method = "PUT" ∧ pathItem.Put = some op) ∨
  (method = "DELETE" ∧ pathItem.Delete = some op) ∨
  (method = "PATCH" ∧ pathItem.Patch = some op) ∨
  (method = "HEAD" ∧ pathItem.Head = some op) ∨
  (method = "OPTIONS" ∧ pathItem.Options = some op) ∨
  (method = "TRACE" ∧ pathItem.Trace = some op)

end Code

/-! ## The text payload: `json.MarshalIndent(apiDetails, "", "  ")` -/

section Serialization

variable {σ μ ρ : Type}

/-- Modelled from the spec: the encoders of the Go library that the payload
needs and the repository does not hold. `quote` gives the JSON text of a Go
string; `schema`, `mediaType` and `response` give the indented JSON text of a
library value placed at a nesting depth, or the message of the error of its
encoder. -/
structure Encoders (σ μ ρ : Type) where
  quote : String → String
  schema : Nat → σ → Except String String
  mediaType : Nat → μ → Except String String
  response : Nat → ρ → Except String String

/-- The indentation of a line at a nesting depth: two spaces per level. -/
def indentation (depth : Nat) : String :=
  String.join (List.replicate depth "  ")

/-- Modelled from the spec: the indented JSON text of an object at a nesting
depth, from its member keys and the texts of the member values: every member
on a line of its own, one level deeper. -/
def indentObject (quote : String → String) (depth : Nat) (members : List (String × String)) :
    String :=
  match members with
  | [] => "\x7b\x7d"
  | _ :: _ =>
    "\x7b\n" ++
      String.intercalate ",\n"
        (members.map fun m => indentation (depth + 1) ++ quote m.1 ++ ": " ++ m.2) ++
      "\n" ++ indentation depth ++ "\x7d"

/-- Modelled from the spec: the indented JSON text of an array at a nesting
depth, from the texts of its elements. -/
def indentArray (depth : Nat) (items : List String) : String :=
  match items with
  | [] => "[]"
  | _ :: _ =>
    "[\n" ++ String.intercalate ",\n" (items.map fun i => indentation (depth + 1) ++ i) ++
      "\n" ++ indentation depth ++ "]"

/-- The JSON text of a Go bool. -/
def encodeBool (b : Bool) : String :=
  if b then "true" else "false"

/-- A member with the `omitempty` option and a string value: left out when the
string is empty. -/
def omitEmptyString (quote : String → String) (key value : String) : List (String × String) :=
  if value = "" then [] else [(key, quote value)]

/-- A member with the `omitempty` option whose value is absent (`none`: a nil
pointer or interface, or a slice or map with no element) or encoded. -/
def omitEmpty (key : String) (value : Option String) : List (String × String) :=
  match value with
  | none => []
  | some text => [(key, text)]

/-- Encode the elements of a list, in order, up to the first error. -/
def encodeAll {α : Type} (f : α → Except String String) : List α → Except String (List String)
  | [] => Except.ok []
  | x :: rest =>
    match f x with
    | Except.error err => Except.error err
    | Except.ok text =>
      match encodeAll f rest with
      | Except.error err => Except.error err
      | Except.ok texts => Except.ok (text :: texts)

/-- Insertion of a map entry among entries sorted by key. -/
def insertByKey {ν : Type} (e : String × ν) : List (String × ν) → List (String × ν)
  | [] => [e]
  | x :: rest => if e.1 < x.1 then e :: x :: rest else x :: insertByKey e rest

/-- The entries of a map sorted by key, the order in which the encoder writes
them. -/
def sortByKey {ν : Type} (entries : List (String × ν)) : List (String × ν) :=
  entries.foldr insertByKey []

/-- Modelled from the spec: the value of a map-typed member with `omitempty`:
absent for a nil or empty map, else an object with the keys sorted. -/
def encodeMap {ν : Type} (quote : String → String) (value : Nat → ν → Except String String)
    (depth : Nat) (m : Option (GoMap ν)) : Except String (Option String) :=
  match m with
  | none => Except.ok none
  | some ⟨[]⟩ => Except.ok none
  | some ⟨e :: rest⟩ =>
    match encodeAll (fun entry => value (depth + 1) entry.2) (sortByKey (e :: rest)) with
    | Except.error err => Except.error err
    | Except.ok texts =>
      Except.ok (some (indentObject quote depth
        (List.zip ((sortByKey (e :: rest)).map Prod.fst) texts)))

/-- The members of a `ParameterDetails` object, by the tags of lines 52-58. -/
def encodeParameterDetails (enc : Encoders σ μ ρ) (depth : Nat) (pd : ParameterDetails σ) :
    Except String String :=
  match pd.Schema with
  | none =>
    Except.ok (indentObject enc.quote depth
      ([("name", enc.quote pd.Name), ("in", enc.quote pd.In),
        ("required", encodeBool pd.Required)] ++
        omitEmptyString enc.quote "description" pd.Description))
  | some schema =>
    match enc.schema (depth + 1) schema with
    | Except.error err => Except.error err
    | Except.ok text =>
      Except.ok (indentObject enc.quote depth
        ([("name", enc.quote pd.Name), ("in", enc.quote pd.In),
          ("required", encodeBool pd.Required)] ++
          omitEmptyString enc.quote "description" pd.Description ++ [("schema", text)]))

/-- The value of the `parameters` member: absent for a nil or empty slice. -/
def encodeParameters (enc : Encoders σ μ ρ) (depth : Nat)
    (parameters : Option (List (ParameterDetails σ))) : Except String (Option String) :=
  match parameters with
  | none => Except.ok none
  | some [] => Except.ok none
  | some (pd :: rest) =>
    match encodeAll (encodeParameterDetails enc (depth + 1)) (pd :: rest) with
    | Except.error err => Except.error err
    | Except.ok items => Except.ok (some (indentArray depth items))

/-- The value of the `request_body` member, by the tags of lines 60-64: absent
for a nil pointer. -/
def encodeRequestBody (enc : Encoders σ μ ρ) (depth : Nat)
    (requestBody : Option (RequestBodyDetails μ)) : Except String (Option String) :=
  match requestBody with
  | none => Except.ok none
  | some body =>
    match encodeMap enc.quote enc.mediaType (depth + 1) body.Content with
    | Except.error err => Except.error err
    | Except.ok content =>
      Except.ok (some (indentObject enc.quote depth
        (omitEmptyString enc.quote "description" body.Description ++
          [("required", encodeBool body.Required)] ++ omitEmpty "content" content)))

/-- The members of the top-level object, by the tags of lines 41-50, in the
order of the fields; an error of a nested encoder ends the encoding. -/
def apiDetailsMembers (enc : Encoders σ μ ρ) (d : APIDetails σ μ ρ) :
    Except String (List (String × String)) :=
  match encodeParameters enc 1 d.Parameters with
  | Except.error err => Except.error err
  | Except.ok parameters =>
    match encodeRequestBody enc 1 d.RequestBody with
    | Except.error err => Except.error err
    | Except.ok requestBody =>
      match encodeMap enc.quote enc.response 1 d.Responses with
      | Except.error err => Except.error err
      | Except.ok responses =>
        Except.ok
          ([("operation_id", enc.quote d.OperationID), ("method", enc.quote d.Method),
            ("path", enc.quote d.Path)] ++
            omitEmptyString enc.quote "summary" d.Summary ++
            omitEmptyString enc.quote "description" d.Description ++
            omitEmpty "parameters" parameters ++
            omitEmpty "request_body" requestBody ++
            omitEmpty "responses" responses)

/-- Modelled from the spec: `json.MarshalIndent(apiDetails, "", "  ")`, which
belongs to the Go standard library: the two-space-indented text of the
top-level object, or the message of the error. -/
def MarshalIndent (enc : Encoders σ μ ρ) (d : APIDetails σ μ ρ) : Except String String :=
  match apiDetailsMembers enc d with
  | Except.error err => Except.error err
  | Except.ok members => Except.ok (indentObject enc.quote 0 members)

/-- The keys that the tags of `APIDetails` declare, in the order of the
fields. -/
def apiDetailsKeys : List String :=
  ["operation_id", "method", "path", "summary", "description", "parameters",
    "request_body", "responses"]

end Serialization

/-! ## Sample documents -/

section Samples

/-- A path item with no operation. -/
def emptyPathItem : PathItem String String String :=
  { Summary := "", Description := "", Get := none, Post := none, Put := none,
    Delete := none, Patch := none, Head := none, Options := none, Trace := none,
    Parameters := none }

/-- An operation with the given `operationId` and nothing else. -/
def bareOperation (id : String) : Operation String String String :=
  { Summary := "", Description := "", OperationID := id, Parameters := none,
    RequestBody := none, Responses := none }

/-- The path parameter `id` of `GET /pets/{id}`. -/
def petIdParameter : Parameter String :=
  { Name := "id", In := "path", Description := "", Required := true, Schema := none }

/-- The operation `getPet`. -/
def getPet : Operation String String String :=
  { Summary := "Find a pet", Description := "Returns one pet", OperationID := "getPet",
    Parameters := some [⟨"", some petIdParameter⟩], RequestBody := none, Responses := none }

/-- A document with `GET /pets/{id}`, `operationId: getPet`. -/
def petsDoc : T String String String :=
  ⟨⟨[("/pets/{id}", { emptyPathItem with Get := some getPet })]⟩⟩

/-- The `GET` operation of `/items`, with identifier `dup`. -/
def dupGet : Operation String String String :=
  { bareOperation "dup" with Summary := "list items" }

/-- The `POST` operation of `/items`, with the same identifier `dup`. -/
def dupPost : Operation String String String :=
  { bareOperation "dup" with Summary := "create item" }

/-- A path item with the identifier `dup` on two verbs. -/
def dupItem : PathItem String String String :=
  { emptyPathItem with Get := some dupGet, Post := some dupPost }

/-- A document whose only path `/items` has the identifier `dup` on two verbs. -/
def dupDoc : T String String String :=
  ⟨⟨[("/items", dupItem)]⟩⟩

/-- The operation `createOrder`: a required JSON request body, responses `201`
and `400`, and a `default` entry whose reference is not resolved. -/
def createOrder : Operation String String String :=
  { Summary := "Create an order", Description := "", OperationID := "createOrder",
    Parameters := none,
    RequestBody := some ⟨"", some
      { Description := "the order", Required := true,
        Content := ⟨[("application/json", "order media type")]⟩ }⟩,
    Responses := some ⟨[("201", ⟨"", some "created"⟩), ("400", ⟨"", some "bad request"⟩),
      ("default", ⟨"#/components/responses/Missing", none⟩)]⟩ }

/-- A document with `POST /orders`, `operationId: createOrder`, next to the
pets path. -/
def ordersDoc : T String String String :=
  ⟨⟨[("/pets/{id}", { emptyPathItem with Get := some getPet }),
     ("/orders", { emptyPathItem with Post := some createOrder })]⟩⟩

/-- The operation `ping`: one parameter reference that is not resolved, no
request body, and a response object that holds no response. -/
def ping : Operation String String String :=
  { bareOperation "ping" with
    Parameters := some [⟨"#/components/parameters/Missing", none⟩]
    Responses := some ⟨[]⟩ }

/-- A document with `GET /ping`, `operationId: ping`. -/
def pingDoc : T String String String :=
  ⟨⟨[("/ping", { emptyPathItem with Get := some ping })]⟩⟩

/-- The query parameter `limit`, with a schema. -/
def limitParameter : Parameter String :=
  { Name := "limit", In := "query", Description := "page size", Required := false,
    Schema := some ⟨"", some "integer schema"⟩ }

/-- The operation `searchPets`: a parameter reference that is not resolved,
then `limit`, then a parameter whose schema reference is not resolved. -/
def searchPets : Operation String String String :=
  { bareOperation "searchPets" with
    Parameters := some
      [⟨"#/components/parameters/Missing", none⟩,
       ⟨"", some limitParameter⟩,
       ⟨"", some { petIdParameter with
          Name := "tag", In := "query", Required := false,
          Schema := some ⟨"#/components/schemas/Missing", none⟩ }⟩] }

/-- A document with `GET /pets`, `operationId: searchPets`. -/
def searchDoc : T String String String :=
  ⟨⟨[("/pets", { emptyPathItem with Get := some searchPets })]⟩⟩

/-- A document with `GET /health`, an operation that declares no
`operationId`, next to the pets path. -/
def healthDoc : T String String String :=
  ⟨⟨[("/pets/{id}", { emptyPathItem with Get := some getPet }),
     ("/health", { emptyPathItem with
        Get := some { bareOperation "" with Summary := "liveness" } })]⟩⟩

/-- The pets document with a summary and a parameter attached to the path item
itself, outside the verb operations. -/
def petsDocShared : T String String String :=
  ⟨⟨[("/pets/{id}",
      { emptyPathItem with
        Get := some getPet
        Summary := "pets by id"
        Parameters := some [⟨"", some limitParameter⟩] })]⟩⟩

end Samples

/-! ## `resolveOpenAPIPath` -/

section Resolve

/-- Modelled from the spec: `os.FileInfo` is declared in the Go standard
library; the code calls its `IsDir`. -/
structure FileInfo where
  IsDir : Bool
deriving DecidableEq, Repr

/-- What one call of `resolveOpenAPIPath` returns and does: the returned
string, the returned error (`none` is nil, `some` holds its message), and the
names passed to `os.Stat`, in the order of the calls. -/
structure Resolution where
  path : String
  err : Option String
  stats : List String
deriving DecidableEq, Repr

/-- `strings.HasPrefix(s, pre)`. -/
def HasPrefix (s pre : String) : Bool :=
  pre.toList.isPrefixOf s.toList

/-- Whether `os.Stat` succeeds on a name: the file exists, for the code. -/
def statOK (stat : String → Except String FileInfo) (name : String) : Bool :=
  match stat name with
  | Except.ok _ => true
  | Except.error _ => false

/-- `resolveOpenAPIPath`, lines 66-88. `stat` is `os.Stat` on the filesystem
state of the call (the file info, or the text of the error) and `join` is
`filepath.Join`. -/
def resolveOpenAPIPath (stat : String → Except String FileInfo)
    (join : String → String → String) (path : String) : Resolution :=
  if HasPrefix path "http://" || HasPrefix path "https://" then
    { path := path, err := none, stats := [] }
  else
    match stat path with
    | Except.error err =>
      { path := "", err := some ("path does not exist: " ++ err), stats := [path] }
    | Except.ok info =>
      if info.IsDir then
        match stat (join path "openapi.yaml") with
        | Except.ok _ =>
          { path := join path "openapi.yaml", err := none,
            stats := [path, join path "openapi.yaml"] }
        | Except.error _ =>
          match stat (join path "openapi.yml") with
          | Except.ok _ =>
            { path := join path "openapi.yml", err := none,
              stats := [path, join path "openapi.yaml", join path "openapi.yml"] }
          | Except.error _ =>
            { path := "",
              err := some ("openapi.yaml or openapi.yml not found in directory: " ++ path),
              stats := [path, join path "openapi.yaml", join path "openapi.yml"] }
      else
        { path := path, err := none, stats := [path] }

/-- Repeated separators of a name, made one. -/
def collapseSeparators : List Char → List Char
  | [] => []
  | c :: rest =>
    if c = '/' ∧ rest.head? = some '/' then collapseSeparators rest
    else c :: collapseSeparators rest

/-- A stand-in for `filepath.Join` on the sample names below: the two elements
with a separator between them, repeated separators made one. -/
def sampleJoin (dir file : String) : String :=
  String.mk (collapseSeparators (dir ++ "/" ++ file).toList)

/-- A sample filesystem state. `specs` holds both files, `legacy` holds
`openapi.yml` only, `bare` holds neither, `api.yaml` is a file, and the
directory `http:` holds a directory `specs` with an `openapi.yaml`. -/
def sampleStat (name : String) : Except String FileInfo :=
  if name = "specs" ∨ name = "legacy" ∨ name = "bare" ∨ name = "http://specs" then
    Except.ok ⟨true⟩
  else if name = "specs/openapi.yaml" ∨ name = "specs/openapi.yml" ∨
      name = "legacy/openapi.yml" ∨ name = "api.yaml" ∨
      name = "http:/specs/openapi.yaml" then
    Except.ok ⟨false⟩
  else
    Except.error ("stat " ++ name ++ ": no such file or directory")

end Resolve

/-- A sample set of encoders: a string between double quotes, without
escapes, and every library value as the quoted sample text that stands for
it. -/
def sampleEncoders : Encoders String String String where
  quote := fun s => "\"" ++ s ++ "\""
  schema := fun _ v => Except.ok ("\"" ++ v ++ "\"")
  mediaType := fun _ v => Except.ok ("\"" ++ v ++ "\"")
  response := fun _ v => Except.ok ("\"" ++ v ++ "\"")

/-! ## Lemmas on maps -/

section MapLemmas

variable {ν : Type}

theorem GoMap.value_unique : ∀ {l : List (String × ν)} {k : String} {v w : ν},
    (l.map Prod.fst).Nodup → (k, v) ∈ l → (k, w) ∈ l → v = w
  | [], _, _, _, _, hv, _ => by cases hv
  | (k', v') :: rest, k, v, w, hnd, hv, hw => by
    simp only [List.map_cons, List.nodup_cons, List.mem_map, not_exists, not_and] at hnd
    rcases List.mem_cons.1 hv with hv | hv <;> rcases List.mem_cons.1 hw with hw | hw
    · cases hv; cases hw; rfl
    · cases hv
      exact absurd rfl (hnd.1 _ hw)
    · cases hw
      exact absurd rfl (hnd.1 _ hv)
    · exact GoMap.value_unique hnd.2 hv hw

theorem GoMap.setEntries_fresh {k : String} {v : ν} :
    ∀ {l : List (String × ν)}, k ∉ l.map Prod.fst → GoMap.setEntries k v l = l ++ [(k, v)]
  | [], _ => rfl
  | (k', v') :: rest, h => by
    simp only [List.map_cons, List.mem_cons, not_or] at h
    have hne : ¬ k' = k := fun e => h.1 e.symm
    simp only [GoMap.setEntries, hne, if_false, List.cons_append]
    rw [GoMap.setEntries_fresh h.2]

/-- A loop that assigns, for each visited entry, at most one value under the
key of that entry: when the visited keys are distinct and not yet in the map,
the loop appends the assigned entries in the order of the visit. -/
theorem GoMap.foldl_set_fresh {α : Type} (g : String × α → Option ν) :
    ∀ (l : List (String × α)) (acc : GoMap ν), (l.map Prod.fst).Nodup →
      (∀ k ∈ acc.keys, k ∉ l.map Prod.fst) →
      l.foldl (fun acc e => match g e with
        | none => acc
        | some v => acc.set e.1 v) acc =
        ⟨acc.entries ++ l.filterMap fun e => (g e).map fun v => (e.1, v)⟩
  | [], acc, _, _ => by simp
  | e :: rest, acc, hnd, hacc => by
    rw [List.map_cons, List.nodup_cons] at hnd
    rw [List.foldl_cons]
    cases hg : g e with
    | none =>
      simp only [List.filterMap_cons, hg, Option.map_none']
      exact GoMap.foldl_set_fresh g rest acc hnd.2
        (fun k hk hin => hacc k hk (List.mem_cons_of_mem _ hin))
    | some v =>
      have hfresh : e.1 ∉ acc.entries.map Prod.fst :=
        fun hin => hacc e.1 hin (List.mem_cons_self _ _)
      simp only [List.filterMap_cons, hg, Option.map_some']
      rw [GoMap.foldl_set_fresh g rest (acc.set e.1 v) hnd.2]
      · simp only [GoMap.set, GoMap.setEntries_fresh hfresh, List.append_assoc,
          List.singleton_append]
      · intro k hk hin
        simp only [GoMap.keys, GoMap.set, GoMap.setEntries_fresh hfresh, List.map_append,
          List.map_cons, List.map_nil, List.mem_append, List.mem_singleton] at hk
        rcases hk with hk | hk
        · exact hacc k hk (List.mem_cons_of_mem _ hin)
        · subst hk
          exact hnd.1 hin

/-- In a list with distinct keys, lookup finds exactly the listed entries. -/
theorem GoMap.getEntries_eq_some_iff {k : String} {v : ν} :
    ∀ {l : List (String × ν)}, (l.map Prod.fst).Nodup →
      (GoMap.getEntries k l = some v ↔ (k, v) ∈ l)
  | [], _ => by simp [GoMap.getEntries]
  | (k', v') :: rest, hnd => by
    rw [List.map_cons, List.nodup_cons] at hnd
    by_cases hk : k' = k
    · subst hk
      simp only [GoMap.getEntries, if_true, Option.some.injEq, List.mem_cons, Prod.mk.injEq,
        true_and]
      constructor
      · intro h; exact Or.inl h.symm
      · rintro (h | h)
        · exact h.symm
        · exact absurd (List.mem_map.2 ⟨_, h, rfl⟩) hnd.1
    · simp only [GoMap.getEntries, hk, if_false, List.mem_cons, Prod.mk.injEq]
      rw [GoMap.getEntries_eq_some_iff hnd.2]
      constructor
      · intro h; exact Or.inr h
      · rintro (h | h)
        · exact absurd h.1.symm hk
        · exact h

/-- Keeping some entries, with their keys, keeps the keys distinct. -/
theorem GoMap.nodup_keys_filterMap {α : Type} (g : String × α → Option ν) :
    ∀ (l : List (String × α)), (l.map Prod.fst).Nodup →
      ((l.filterMap fun e => (g e).map fun v => (e.1, v)).map Prod.fst).Nodup
  | [], _ => by simp
  | e :: rest, hnd => by
    rw [List.map_cons, List.nodup_cons] at hnd
    have ih := GoMap.nodup_keys_filterMap g rest hnd.2
    cases hg : g e with
    | none => simpa [List.filterMap_cons, hg] using ih
    | some v =>
      simp only [List.filterMap_cons, hg, Option.map_some', List.map_cons, List.nodup_cons]
      refine ⟨?_, ih⟩
      intro hin
      obtain ⟨⟨k, w⟩, hmem, hk⟩ := List.mem_map.1 hin
      obtain ⟨e', he', hge'⟩ := List.mem_filterMap.1 hmem
      cases hg' : g e' with
      | none => simp [hg'] at hge'
      | some w' =>
        simp only [hg', Option.map_some', Option.some.injEq, Prod.mk.injEq] at hge'
        apply hnd.1
        have : e'.1 = e.1 := by rw [hge'.1]; exact hk
        rw [← this]
        exact List.mem_map.2 ⟨e', he', rfl⟩

/-- Two listings of the same entries, with distinct keys, look up alike. -/
theorem GoMap.getEntries_perm {l₁ l₂ : List (String × ν)} (hp : l₁.Perm l₂)
    (hnd : (l₂.map Prod.fst).Nodup) (k : String) :
    GoMap.getEntries k l₁ = GoMap.getEntries k l₂ := by
  have hnd₁ : (l₁.map Prod.fst).Nodup := (hp.map Prod.fst).nodup_iff.2 hnd
  apply Option.ext
  intro v
  rw [Option.mem_def, Option.mem_def, GoMap.getEntries_eq_some_iff hnd₁,
    GoMap.getEntries_eq_some_iff hnd]
  exact hp.mem_iff

end MapLemmas

/-! ## Lemmas on the scan -/

section ScanLemmas

variable {σ μ ρ : Type}

theorem RangeOrder.listed_valid : (RangeOrder.listed : RangeOrder σ μ ρ).Valid :=
  ⟨fun _ => List.Perm.refl _, fun _ _ => List.Perm.refl _, fun _ => List.Perm.refl _,
    fun _ => List.Perm.refl _⟩

theorem RangeOrder.reversed_valid : (RangeOrder.reversed : RangeOrder σ μ ρ).Valid :=
  ⟨fun _ => List.reverse_perm _, fun _ _ => List.reverse_perm _, fun _ => List.reverse_perm _,
    fun _ => List.reverse_perm _⟩

theorem operations_wf (pathItem : PathItem σ μ ρ) : (operations pathItem).WF := by
  show ["GET", "POST", "PUT", "DELETE", "PATCH", "HEAD", "OPTIONS", "TRACE"].Nodup
  decide

theorem operations_method {pathItem : PathItem σ μ ρ} {method : String}
    {op : Option (Operation σ μ ρ)} (h : (method, op) ∈ (operations pathItem).entries) :
    method ∈ ["GET", "POST", "PUT", "DELETE", "PATCH", "HEAD", "OPTIONS", "TRACE"] := by
  have : method ∈ (operations pathItem).keys := List.mem_map.2 ⟨_, h, rfl⟩
  exact this

theorem scanOperations_none_iff (r : RangeOrder σ μ ρ) (id path : String) :
    ∀ l : List (String × Option (Operation σ μ ρ)),
      scanOperations r id path l = none ↔
        ∀ method op, (method, some op) ∈ l → op.OperationID ≠ id
  | [] => by simp [scanOperations]
  | (m, none) :: rest => by
    simp [scanOperations, scanOperations_none_iff r id path rest]
  | (m, some o) :: rest => by
    by_cases h : o.OperationID = id
    · simp only [scanOperations, h, if_true]
      constructor
      · intro hc; cases hc
      · intro hall
        exact absurd h (hall m o (List.mem_cons_self _ _))
    · simp only [scanOperations, h, if_false, scanOperations_none_iff r id path rest]
      constructor
      · intro hall method op hmem
        rcases List.mem_cons.1 hmem with heq | hmem
        · cases heq; exact h
        · exact hall method op hmem
      · intro hall method op hmem
        exact hall method op (List.mem_cons_of_mem _ hmem)

theorem scanOperations_some (r : RangeOrder σ μ ρ) (id path : String) :
    ∀ (l : List (String × Option (Operation σ μ ρ))) (d : APIDetails σ μ ρ),
      scanOperations r id path l = some d →
        ∃ method op, (method, some op) ∈ l ∧ op.OperationID = id ∧
          d = project r path method op
  | [], d, h => by simp [scanOperations] at h
  | (m, none) :: rest, d, h => by
    simp only [scanOperations] at h
    obtain ⟨method, op, hmem, hid, hd⟩ := scanOperations_some r id path rest d h
    exact ⟨method, op, List.mem_cons_of_mem _ hmem, hid, hd⟩
  | (m, some o) :: rest, d, h => by
    by_cases hid : o.OperationID = id
    · simp only [scanOperations, hid, if_true, Option.some.injEq] at h
      exact ⟨m, o, List.mem_cons_self _ _, hid, h.symm⟩
    · simp only [scanOperations, hid, if_false] at h
      obtain ⟨method, op, hmem, hid', hd⟩ := scanOperations_some r id path rest d h
      exact ⟨method, op, List.mem_cons_of_mem _ hmem, hid', hd⟩

theorem scanPaths_none_iff (r : RangeOrder σ μ ρ) (id : String) :
    ∀ l : List (String × PathItem σ μ ρ),
      scanPaths r id l = none ↔
        ∀ path pathItem, (path, pathItem) ∈ l →
          scanOperations r id path (r.operations path (operations pathItem)) = none
  | [] => by simp [scanPaths]
  | (p, item) :: rest => by
    cases hs : scanOperations r id p (r.operations p (operations item)) with
    | some d =>
      simp only [scanPaths, hs]
      constructor
      · intro hc; cases hc
      · intro hall
        have := hall p item (List.mem_cons_self _ _)
        rw [hs] at this
        cases this
    | none =>
      simp only [scanPaths, hs, scanPaths_none_iff r id rest]
      constructor
      · intro hall path pathItem hmem
        rcases List.mem_cons.1 hmem with heq | hmem
        · cases heq; exact hs
        · exact hall path pathItem hmem
      · intro hall path pathItem hmem
        exact hall path pathItem (List.mem_cons_of_mem _ hmem)

theorem scanPaths_some (r : RangeOrder σ μ ρ) (id : String) :
    ∀ (l : List (String × PathItem σ μ ρ)) (d : APIDetails σ μ ρ),
      scanPaths r id l = some d →
        ∃ path pathItem, (path, pathItem) ∈ l ∧
          scanOperations r id path (r.operations path (operations pathItem)) = some d
  | [], d, h => by simp [scanPaths] at h
  | (p, item) :: rest, d, h => by
    cases hs : scanOperations r id p (r.operations p (operations item)) with
    | some d' =>
      simp only [scanPaths, hs, Option.some.injEq] at h
      exact ⟨p, item, List.mem_cons_self _ _, by rw [hs, h]⟩
    | none =>
      simp only [scanPaths, hs] at h
      obtain ⟨path, pathItem, hmem, hd⟩ := scanPaths_some r id rest d h
      exact ⟨path, pathItem, List.mem_cons_of_mem _ hmem, hd⟩

/-- Under a valid order, a projection comes from an operation of the document
that carries the identifier. -/
theorem apiDetails_some {r : RangeOrder σ μ ρ} (hr : r.Valid) {s : OpenAPIServer σ μ ρ}
    {params : GetAPIDetailsParams} {d : APIDetails σ μ ρ}
    (h : GetAPIDetails.apiDetails r s params = some d) :
    ∃ path method op, Carries s.doc params.OperationID path method op ∧
      d = project r path method op := by
  obtain ⟨path, pathItem, hmem, hscan⟩ := scanPaths_some r _ _ d h
  obtain ⟨method, op, hop, hid, hd⟩ := scanOperations_some r _ _ _ d hscan
  exact ⟨path, method, op,
    ⟨pathItem, (hr.1 _).mem_iff.1 hmem, (hr.2.1 _ _).mem_iff.1 hop, hid⟩, hd⟩

/-- Under a valid order, the scan finds nothing exactly when no operation of
the document carries the identifier. -/
theorem apiDetails_none_iff {r : RangeOrder σ μ ρ} (hr : r.Valid) (s : OpenAPIServer σ μ ρ)
    (params : GetAPIDetailsParams) :
    GetAPIDetails.apiDetails r s params = none ↔
      ∀ path method op, ¬ Carries s.doc params.OperationID path method op := by
  unfold GetAPIDetails.apiDetails
  rw [scanPaths_none_iff]
  constructor
  · intro hall path method op ⟨pathItem, hmem, hop, hid⟩
    have h1 := hall path pathItem ((hr.1 _).mem_iff.2 hmem)
    rw [scanOperations_none_iff] at h1
    exact h1 method op ((hr.2.1 _ _).mem_iff.2 hop) hid
  · intro hall path pathItem hmem
    rw [scanOperations_none_iff]
    intro method op hop hid
    exact hall path method op
      ⟨pathItem, (hr.1 _).mem_iff.1 hmem, (hr.2.1 _ _).mem_iff.1 hop, hid⟩

/-- The list `carriers` holds exactly the operations that carry the
identifier. -/
theorem mem_carriers (doc : T σ μ ρ) (id path method : String) (op : Operation σ μ ρ) :
    (path, method, op) ∈ carriers doc id ↔ Carries doc id path method op := by
  unfold carriers Carries
  simp only [List.mem_flatMap, List.mem_filterMap]
  constructor
  · rintro ⟨⟨p, pathItem⟩, hmem, ⟨m, o⟩, hop, hsome⟩
    cases o with
    | none => simp at hsome
    | some op' =>
      by_cases hid : op'.OperationID = id
      · simp only [hid, if_true, Option.some.injEq, Prod.mk.injEq] at hsome
        obtain ⟨rfl, rfl, rfl⟩ := hsome
        exact ⟨pathItem, hmem, hop, hid⟩
      · simp [hid] at hsome
  · rintro ⟨pathItem, hmem, hop, hid⟩
    exact ⟨(path, pathItem), hmem, (method, some op), hop, by simp [hid]⟩

theorem carries_of_carriers {doc : T σ μ ρ} {id path method : String} {op : Operation σ μ ρ}
    (h : carriers doc id = [(path, method, op)]) : Carries doc id path method op :=
  (mem_carriers doc id path method op).1 (by rw [h]; exact List.mem_singleton.2 rfl)

theorem unique_of_carriers {doc : T σ μ ρ} {id path method : String} {op : Operation σ μ ρ}
    (h : carriers doc id = [(path, method, op)]) (path' method' : String)
    (op' : Operation σ μ ρ) (hc : Carries doc id path' method' op') :
    path' = path ∧ method' = method := by
  have hmem := (mem_carriers doc id path' method' op').2 hc
  rw [h, List.mem_singleton] at hmem
  simp only [Prod.mk.injEq] at hmem
  exact ⟨hmem.1, hmem.2.1⟩

theorem absent_of_carriers {doc : T σ μ ρ} {id : String} (h : carriers doc id = [])
    (path method : String) (op : Operation σ μ ρ) : ¬ Carries doc id path method op := by
  intro hc
  have hmem := (mem_carriers doc id path method op).2 hc
  rw [h] at hmem
  cases hmem

/-- In a real map, the operation at a path and verb is determined. -/
theorem carries_same_operation {doc : T σ μ ρ} (hwf : doc.Paths.WF) {id path method : String}
    {op op' : Operation σ μ ρ} (h : Carries doc id path method op)
    (h' : Carries doc id path method op') : op' = op := by
  obtain ⟨item, hmem, hop, _⟩ := h
  obtain ⟨item', hmem', hop', _⟩ := h'
  have hitem : item' = item := GoMap.value_unique hwf hmem' hmem
  subst hitem
  have := GoMap.value_unique (operations_wf item') hop' hop
  exact Option.some.inj this

/-- The inner loop returns the projection of the first visited entry that
holds the identifier. -/
theorem scanOperations_first (r : RangeOrder σ μ ρ) (id path : String) :
    ∀ (l : List (String × Option (Operation σ μ ρ))) (d : APIDetails σ μ ρ),
      scanOperations r id path l = some d →
        ∃ method op, l.find? (holdsID id) = some (method, some op) ∧
          d = project r path method op
  | [], d, h => by simp [scanOperations] at h
  | (m, none) :: rest, d, h => by
    simp only [scanOperations] at h
    obtain ⟨method, op, hfind, hd⟩ := scanOperations_first r id path rest d h
    exact ⟨method, op, by simpa [List.find?, holdsID] using hfind, hd⟩
  | (m, some o) :: rest, d, h => by
    by_cases hid : o.OperationID = id
    · simp only [scanOperations, hid, if_true, Option.some.injEq] at h
      exact ⟨m, o, by simp [List.find?, holdsID, hid], h.symm⟩
    · simp only [scanOperations, hid, if_false] at h
      obtain ⟨method, op, hfind, hd⟩ := scanOperations_first r id path rest d h
      exact ⟨method, op, by simpa [List.find?, holdsID, hid] using hfind, hd⟩

/-- Under a valid order, a projection comes from a path of the document and
from the first entry holding the identifier that the iteration over the verbs
of that path visits. -/
theorem apiDetails_first {r : RangeOrder σ μ ρ} (hr : r.Valid) {s : OpenAPIServer σ μ ρ}
    {params : GetAPIDetailsParams} {d : APIDetails σ μ ρ}
    (h : GetAPIDetails.apiDetails r s params = some d) :
    ∃ path pathItem method op, (path, pathItem) ∈ s.doc.Paths.entries ∧
      (r.operations path (operations pathItem)).find? (holdsID params.OperationID) =
        some (method, some op) ∧
      (method, some op) ∈ (operations pathItem).entries ∧
      op.OperationID = params.OperationID ∧ d = project r path method op := by
  obtain ⟨path, pathItem, hmem, hscan⟩ := scanPaths_some r _ _ d h
  obtain ⟨method, op, hfind, hd⟩ := scanOperations_first r _ _ _ d hscan
  have hop := (hr.2.1 _ _).mem_iff.1 (List.mem_of_find?_eq_some hfind)
  have hid := List.find?_some hfind
  simp only [holdsID, decide_eq_true_eq] at hid
  exact ⟨path, pathItem, method, op, (hr.1 _).mem_iff.1 hmem, hfind, hop, hid, hd⟩

/-- The outer loop stops at the first visited path with a match: the paths
visited before it have none. -/
theorem scanPaths_first (r : RangeOrder σ μ ρ) (id : String) :
    ∀ (l : List (String × PathItem σ μ ρ)) (d : APIDetails σ μ ρ),
      scanPaths r id l = some d →
        ∃ before path pathItem after, l = before ++ (path, pathItem) :: after ∧
          (∀ e ∈ before,
            scanOperations r id e.1 (r.operations e.1 (operations e.2)) = none) ∧
          scanOperations r id path (r.operations path (operations pathItem)) = some d
  | [], d, h => by simp [scanPaths] at h
  | (p, item) :: rest, d, h => by
    cases hs : scanOperations r id p (r.operations p (operations item)) with
    | some d' =>
      simp only [scanPaths, hs, Option.some.injEq] at h
      exact ⟨[], p, item, rest, rfl, fun e he => (by cases he), (by rw [hs, h])⟩
    | none =>
      simp only [scanPaths, hs] at h
      obtain ⟨before, path, pathItem, after, hl, hbefore, hd⟩ := scanPaths_first r id rest d h
      refine ⟨(p, item) :: before, path, pathItem, after, by rw [hl]; rfl, ?_, hd⟩
      intro e he
      rcases List.mem_cons.1 he with heq | he
      · rw [heq]; exact hs
      · exact hbefore e he

/-- The scan reads a visited path entry through its key and its eight verb
operations only. -/
theorem scanPaths_congr (r : RangeOrder σ μ ρ) (id : String) :
    ∀ (l₁ l₂ : List (String × PathItem σ μ ρ)), List.Forall₂ SameOperations l₁ l₂ →
      scanPaths r id l₁ = scanPaths r id l₂
  | [], [], _ => rfl
  | [], _ :: _, h => by cases h
  | _ :: _, [], h => by cases h
  | (pa, ia) :: rest₁, (pb, ib) :: rest₂, h => by
    cases h with
    | cons hab hrest =>
      obtain ⟨hk, hops⟩ := hab
      have hk' : pa = pb := hk
      have hops' : operations ia = operations ib := hops
      subst hk'
      simp only [scanPaths, hops', scanPaths_congr r id rest₁ rest₂ hrest]

theorem GetAPIDetails_of_apiDetails (r : RangeOrder σ μ ρ)
    (marshalIndent : APIDetails σ μ ρ → Except String String) (s : OpenAPIServer σ μ ρ)
    (params : GetAPIDetailsParams) (d : APIDetails σ μ ρ)
    (h : GetAPIDetails.apiDetails r s params = some d) :
    GetAPIDetails r marshalIndent s params =
      match marshalIndent d with
      | Except.error err =>
        (some (textResult ("Failed to marshal API details: " ++ err)), none)
      | Except.ok jsonData => (some (textResult jsonData), none) := by
  unfold GetAPIDetails
  rw [h]

/-- The `operations` map of the code holds exactly the operations that the
path item has at its verbs. -/
theorem presentAt_iff_mem_operations (pathItem : PathItem σ μ ρ) (method : String)
    (op : Operation σ μ ρ) :
    PresentAt pathItem method op ↔ (method, some op) ∈ (operations pathItem).entries := by
  simp only [PresentAt, operations, List.mem_cons, Prod.mk.injEq, List.mem_nil_iff, or_false]
  constructor
  · rintro (⟨h, e⟩ | ⟨h, e⟩ | ⟨h, e⟩ | ⟨h, e⟩ | ⟨h, e⟩ | ⟨h, e⟩ | ⟨h, e⟩ | ⟨h, e⟩)
    · exact Or.inl ⟨h, e.symm⟩
    · exact Or.inr (Or.inl ⟨h, e.symm⟩)
    · exact Or.inr (Or.inr (Or.inl ⟨h, e.symm⟩))
    · exact Or.inr (Or.inr (Or.inr (Or.inl ⟨h, e.symm⟩)))
    · exact Or.inr (Or.inr (Or.inr (Or.inr (Or.inl ⟨h, e.symm⟩))))
    · exact Or.inr (Or.inr (Or.inr (Or.inr (Or.inr (Or.inl ⟨h, e.symm⟩)))))
    · exact Or.inr (Or.inr (Or.inr (Or.inr (Or.inr (Or.inr (Or.inl ⟨h, e.symm⟩))))))
    · exact Or.inr (Or.inr (Or.inr (Or.inr (Or.inr (Or.inr (Or.inr ⟨h, e.symm⟩))))))
  · rintro (⟨h, e⟩ | ⟨h, e⟩ | ⟨h, e⟩ | ⟨h, e⟩ | ⟨h, e⟩ | ⟨h, e⟩ | ⟨h, e⟩ | ⟨h, e⟩)
    · exact Or.inl ⟨h, e.symm⟩
    · exact Or.inr (Or.inl ⟨h, e.symm⟩)
    · exact Or.inr (Or.inr (Or.inl ⟨h, e.symm⟩))
    · exact Or.inr (Or.inr (Or.inr (Or.inl ⟨h, e.symm⟩)))
    · exact Or.inr (Or.inr (Or.inr (Or.inr (Or.inl ⟨h, e.symm⟩))))
    · exact Or.inr (Or.inr (Or.inr (Or.inr (Or.inr (Or.inl ⟨h, e.symm⟩)))))
    · exact Or.inr (Or.inr (Or.inr (Or.inr (Or.inr (Or.inr (Or.inl ⟨h, e.symm⟩))))))
    · exact Or.inr (Or.inr (Or.inr (Or.inr (Or.inr (Or.inr (Or.inr ⟨h, e.symm⟩))))))

end ScanLemmas

/-! ## Lemmas on the projection -/

section ProjectionLemmas

variable {σ μ ρ : Type}

theorem visit_nodup {α : Type} {l : List (String × α)} {m : GoMap α}
    (hp : l.Perm m.entries) (hwf : m.WF) : (l.map Prod.fst).Nodup :=
  (hp.map Prod.fst).nodup_iff.2 hwf

theorem appendSlice_sliceOf {α : Type} (xs : List α) (x : α) :
    appendSlice (sliceOf xs) x = sliceOf (xs ++ [x]) := by
  cases xs <;> rfl

theorem foldl_parameters (paramRefs : List (ParameterRef σ)) :
    ∀ done : List (ParameterDetails σ),
      paramRefs.foldl
        (fun acc paramRef =>
          match paramRef.Value with
          | none => acc
          | some param => appendSlice acc (paramDetails param))
        (sliceOf done) =
      sliceOf (done ++ (resolved paramRefs).map paramDetails) := by
  induction paramRefs with
  | nil => intro done; simp [resolved]
  | cons paramRef rest ih =>
    intro done
    rw [List.foldl_cons]
    cases hv : paramRef.Value with
    | none =>
      simp only [resolved, List.filterMap_cons, hv]
      exact ih done
    | some param =>
      simp only [resolved, List.filterMap_cons, hv, List.map_cons]
      rw [appendSlice_sliceOf, ih (done ++ [paramDetails param])]
      simp [resolved]

/-- The projected parameters are the projections of the resolved parameters,
in order; the slice is nil when there is none. -/
theorem projectParameters_some (paramRefs : List (ParameterRef σ)) :
    projectParameters (some paramRefs) = sliceOf ((resolved paramRefs).map paramDetails) := by
  have := foldl_parameters paramRefs []
  simpa [projectParameters, sliceOf] using this

theorem sliceOf_ne_some_nil {α : Type} (l : List α) : sliceOf l ≠ some [] := by
  cases l <;> simp [sliceOf]

theorem sliceOf_getD {α : Type} (l : List α) : (sliceOf l).getD [] = l := by
  cases l <;> rfl

theorem sliceOf_isSome {α : Type} (l : List α) : (sliceOf l).isSome = true ↔ l ≠ [] := by
  cases l <;> simp [sliceOf]

/-- The projected responses, for a real response map: the resolved entries, in
the order of the visit. -/
theorem projectResponses_some {r : RangeOrder σ μ ρ} (hr : r.Valid)
    (m : GoMap (ResponseRef ρ)) (hwf : m.WF) :
    projectResponses r (some m) =
      some ⟨(r.responses m).filterMap fun e => e.2.Value.map fun v => (e.1, v)⟩ := by
  have h := GoMap.foldl_set_fresh (fun e : String × ResponseRef ρ => e.2.Value)
    (r.responses m) GoMap.make (visit_nodup (hr.2.2.2 m) hwf) (fun k hk => by cases hk)
  simp only [GoMap.make, List.nil_append] at h
  simp only [projectResponses, GoMap.make]
  rw [← h]

/-- The projected request body, for a declared body with a real content map. -/
theorem projectRequestBody_some {r : RangeOrder σ μ ρ} (hr : r.Valid)
    (requestBodyRef : RequestBodyRef μ) (reqBody : RequestBody μ)
    (hv : requestBodyRef.Value = some reqBody) (hwf : reqBody.Content.WF) :
    projectRequestBody r (some requestBodyRef) =
      some { Description := reqBody.Description, Required := reqBody.Required,
             Content := some ⟨r.content reqBody.Content⟩ } := by
  have h := GoMap.foldl_set_fresh (fun e : String × μ => some e.2)
    (r.content reqBody.Content) GoMap.make (visit_nodup (hr.2.2.1 _) hwf)
    (fun k hk => by cases hk)
  have hid : (fun e : String × μ => some (e.1, e.2)) = some := rfl
  simp only [GoMap.make, List.nil_append, Option.map_some', hid, List.filterMap_some] at h
  simp only [projectRequestBody, hv, GoMap.make]
  rw [h]

theorem projectRequestBody_eq_none_iff (r : RangeOrder σ μ ρ)
    (requestBody : Option (RequestBodyRef μ)) :
    projectRequestBody r requestBody = none ↔
      ¬ ∃ requestBodyRef reqBody, requestBody = some requestBodyRef ∧
        requestBodyRef.Value = some reqBody := by
  cases requestBody with
  | none => simp [projectRequestBody]
  | some ref =>
    cases hv : ref.Value with
    | none => simp [projectRequestBody, hv]
    | some body => simp [projectRequestBody, hv]

/-- When one operation of a real path map carries the identifier, the scan
returns its projection, under every valid order. -/
theorem apiDetails_of_unique {r : RangeOrder σ μ ρ} (hr : r.Valid) {s : OpenAPIServer σ μ ρ}
    (hwf : s.doc.Paths.WF) {id path method : String} {op : Operation σ μ ρ}
    (hcarries : Carries s.doc id path method op)
    (hunique : ∀ path' method' op', Carries s.doc id path' method' op' →
      path' = path ∧ method' = method) :
    GetAPIDetails.apiDetails r s ⟨id⟩ = some (project r path method op) := by
  cases hd : GetAPIDetails.apiDetails r s ⟨id⟩ with
  | none => exact absurd hcarries ((apiDetails_none_iff hr s ⟨id⟩).1 hd path method op)
  | some d =>
    obtain ⟨path', method', op', hc', hproj⟩ := apiDetails_some hr hd
    obtain ⟨hp, hm⟩ := hunique path' method' op' hc'
    subst hp hm
    have hop : op' = op := carries_same_operation hwf hcarries hc'
    rw [hproj, hop]

theorem operation_wf_of_carries {doc : T σ μ ρ} (hwf : doc.WF) {id path method : String}
    {op : Operation σ μ ρ} (h : Carries doc id path method op) : op.WF := by
  obtain ⟨pathItem, hmem, hop, _⟩ := h
  exact hwf.2 (path, pathItem) hmem (method, some op) hop op rfl

/-- The projections of one operation under two valid orders are identical
field for field. -/
theorem project_same {r₁ r₂ : RangeOrder σ μ ρ} (h₁ : r₁.Valid) (h₂ : r₂.Valid)
    (path method : String) {op : Operation σ μ ρ} (hwf : op.WF) :
    (project r₁ path method op).Same (project r₂ path method op) := by
  refine ⟨rfl, rfl, rfl, rfl, rfl, rfl, ?_, ?_⟩
  · show Option.Rel RequestBodyDetails.Same (projectRequestBody r₁ op.RequestBody)
      (projectRequestBody r₂ op.RequestBody)
    cases hb : op.RequestBody with
    | none => exact Option.Rel.none
    | some ref =>
      cases hv : ref.Value with
      | none =>
        simp only [projectRequestBody, hv]
        exact Option.Rel.none
      | some body =>
        have hc : body.Content.WF := hwf.2 ref hb body hv
        rw [projectRequestBody_some h₁ ref body hv hc, projectRequestBody_some h₂ ref body hv hc]
        exact Option.Rel.some ⟨rfl, rfl,
          Option.Rel.some ((h₁.2.2.1 body.Content).trans (h₂.2.2.1 body.Content).symm)⟩
  · show Option.Rel GoMap.Same (projectResponses r₁ op.Responses)
      (projectResponses r₂ op.Responses)
    cases hm : op.Responses with
    | none => exact Option.Rel.none
    | some m =>
      have hc : m.WF := hwf.1 m hm
      rw [projectResponses_some h₁ m hc, projectResponses_some h₂ m hc]
      exact Option.Rel.some (((h₁.2.2.2 m).trans (h₂.2.2.2 m).symm).filterMap _)

theorem resolved_ne_nil_iff (paramRefs : List (ParameterRef σ)) :
    resolved paramRefs ≠ [] ↔ ∃ paramRef ∈ paramRefs, paramRef.Value.isSome = true := by
  induction paramRefs with
  | nil => simp [resolved]
  | cons paramRef rest ih =>
    cases hv : paramRef.Value with
    | none =>
      have hr : resolved (paramRef :: rest) = resolved rest := by
        simp [resolved, List.filterMap_cons, hv]
      rw [hr, ih]
      simp [hv]
    | some param =>
      have hr : resolved (paramRef :: rest) = param :: resolved rest := by
        simp [resolved, List.filterMap_cons, hv]
      rw [hr]
      simp [hv]

/-- The `Parameters` field is never an empty slice, and it is not nil exactly
when some parameter reference of the operation is resolved. -/
theorem projectParameters_sparse (parameters : Option (List (ParameterRef σ))) :
    projectParameters parameters ≠ some [] ∧
    ((projectParameters parameters).isSome = true ↔
      ∃ paramRefs paramRef, parameters = some paramRefs ∧ paramRef ∈ paramRefs ∧
        paramRef.Value.isSome = true) := by
  cases parameters with
  | none => simp [projectParameters]
  | some paramRefs =>
    rw [projectParameters_some]
    refine ⟨sliceOf_ne_some_nil _, ?_⟩
    rw [sliceOf_isSome]
    constructor
    · intro h
      have h' : resolved paramRefs ≠ [] := fun e => h (by rw [e]; rfl)
      obtain ⟨paramRef, hmem, hv⟩ := (resolved_ne_nil_iff paramRefs).1 h'
      exact ⟨paramRefs, paramRef, rfl, hmem, hv⟩
    · rintro ⟨refs, paramRef, hrefs, hmem, hv⟩ hnil
      cases hrefs
      have h' : resolved paramRefs ≠ [] := (resolved_ne_nil_iff paramRefs).2 ⟨paramRef, hmem, hv⟩
      exact h' (List.map_eq_nil_iff.1 hnil)

theorem projectRequestBody_isSome_iff (r : RangeOrder σ μ ρ)
    (requestBody : Option (RequestBodyRef μ)) :
    (projectRequestBody r requestBody).isSome = true ↔
      ∃ requestBodyRef reqBody, requestBody = some requestBodyRef ∧
        requestBodyRef.Value = some reqBody := by
  cases requestBody with
  | none => simp [projectRequestBody]
  | some ref =>
    cases hv : ref.Value with
    | none => simp [projectRequestBody, hv]
    | some body => simp [projectRequestBody, hv]

theorem projectResponses_isSome (r : RangeOrder σ μ ρ)
    (responses : Option (GoMap (ResponseRef ρ))) :
    (projectResponses r responses).isSome = responses.isSome := by
  cases responses <;> rfl

/-- When every reference is resolved, the resolved parameters are the values
of the references, one for one. -/
theorem map_value_of_all_resolved (paramRefs : List (ParameterRef σ))
    (hall : ∀ paramRef ∈ paramRefs, paramRef.Value.isSome = true) :
    paramRefs.map (fun paramRef => paramRef.Value) = (resolved paramRefs).map some := by
  induction paramRefs with
  | nil => rfl
  | cons paramRef rest ih =>
    have ih' := ih (fun p hp => hall p (List.mem_cons_of_mem _ hp))
    cases hv : paramRef.Value with
    | none =>
      have := hall paramRef (List.mem_cons_self _ _)
      rw [hv] at this
      cases this
    | some param =>
      simp only [resolved, List.filterMap_cons, hv, List.map_cons]
      exact congrArg _ ih'

/-- The projected parameter sequence, read as a list (nil slice as the empty
list), is the projection of the resolved parameters, in order. -/
theorem projectParameters_getD (parameters : Option (List (ParameterRef σ))) :
    (projectParameters parameters).getD [] =
      (resolved (parameters.getD [])).map paramDetails := by
  cases parameters with
  | none => rfl
  | some paramRefs => rw [projectParameters_some, sliceOf_getD]; rfl

theorem mem_filterMap_value {α : Type} (l : List (String × ResponseRef α)) (k : String) (v : α) :
    (k, v) ∈ (l.filterMap fun e => e.2.Value.map fun v => (e.1, v)) ↔
      ∃ responseRef, (k, responseRef) ∈ l ∧ responseRef.Value = some v := by
  rw [List.mem_filterMap]
  constructor
  · rintro ⟨⟨k', ref⟩, hmem, hsome⟩
    cases hv : ref.Value with
    | none => simp [hv] at hsome
    | some w =>
      simp only [hv, Option.map_some', Option.some.injEq, Prod.mk.injEq] at hsome
      obtain ⟨rfl, rfl⟩ := hsome
      exact ⟨ref, hmem, hv⟩
  · rintro ⟨ref, hmem, hv⟩
    exact ⟨(k, ref), hmem, by simp [hv]⟩

theorem GoMap.mem_keys_iff {α : Type} (m : GoMap α) (k : String) :
    k ∈ m.keys ↔ ∃ v, (k, v) ∈ m.entries := by
  unfold GoMap.keys
  rw [List.mem_map]
  constructor
  · rintro ⟨⟨k', v⟩, hmem, rfl⟩
    exact ⟨v, hmem⟩
  · rintro ⟨v, hmem⟩
    exact ⟨(k, v), hmem, rfl⟩

/-- The schema of a projected parameter: the value of the schema reference of
the source, when there is a reference and it has a value. -/
theorem paramDetails_schema (param : Parameter σ) :
    ((paramDetails param).Schema.isSome = true ↔
      ∃ schemaRef value, param.Schema = some schemaRef ∧ schemaRef.Value = some value) ∧
    (∀ schemaRef value, param.Schema = some schemaRef → schemaRef.Value = some value →
      (paramDetails param).Schema = some value) := by
  cases hs : param.Schema with
  | none =>
    have hnone : (paramDetails param).Schema = none := by simp [paramDetails, hs]
    refine ⟨⟨fun h => ?_, ?_⟩, ?_⟩
    · rw [hnone] at h; cases h
    · rintro ⟨ref, value, href, _⟩; cases href
    · intro ref value href; cases href
  | some schemaRef =>
    cases hv : schemaRef.Value with
    | none =>
      have hnone : (paramDetails param).Schema = none := by simp [paramDetails, hs, hv]
      refine ⟨⟨fun h => ?_, ?_⟩, ?_⟩
      · rw [hnone] at h; cases h
      · rintro ⟨ref, value, href, hval⟩
        cases href
        rw [hv] at hval
        cases hval
      · intro ref value href hval
        cases href
        rw [hv] at hval
        cases hval
    | some value =>
      have hsome : (paramDetails param).Schema = some value := by
        simp [paramDetails, hs, hv]
      refine ⟨⟨fun _ => ⟨schemaRef, value, rfl, hv⟩, fun _ => by rw [hsome]; rfl⟩, ?_⟩
      intro ref value' href hval
      cases href
      rw [hv] at hval
      rw [hsome, hval]

end ProjectionLemmas

/-! ## Lemmas on the text payload -/

section SerializationLemmas

variable {σ μ ρ : Type}

theorem encodeParameters_isSome {enc : Encoders σ μ ρ} {depth : Nat}
    {parameters : Option (List (ParameterDetails σ))} {out : Option String}
    (h : encodeParameters enc depth parameters = Except.ok out) :
    out.isSome = true ↔ parameters.getD [] ≠ [] := by
  cases parameters with
  | none =>
    simp only [encodeParameters, Except.ok.injEq] at h
    subst h
    simp
  | some l =>
    cases l with
    | nil =>
      simp only [encodeParameters, Except.ok.injEq] at h
      subst h
      simp
    | cons pd rest =>
      simp only [encodeParameters] at h
      cases hall : encodeAll (encodeParameterDetails enc (depth + 1)) (pd :: rest) with
      | error err => rw [hall] at h; cases h
      | ok items =>
        rw [hall] at h
        simp only [Except.ok.injEq] at h
        subst h
        simp

theorem encodeMap_isSome {ν : Type} {quote : String → String}
    {value : Nat → ν → Except String String} {depth : Nat} {m : Option (GoMap ν)}
    {out : Option String} (h : encodeMap quote value depth m = Except.ok out) :
    out.isSome = true ↔ (m.map GoMap.entries).getD [] ≠ [] := by
  cases m with
  | none =>
    simp only [encodeMap, Except.ok.injEq] at h
    subst h
    simp
  | some gm =>
    obtain ⟨l⟩ := gm
    cases l with
    | nil =>
      simp only [encodeMap, Except.ok.injEq] at h
      subst h
      simp
    | cons e rest =>
      simp only [encodeMap] at h
      cases hall : encodeAll (fun entry => value (depth + 1) entry.2) (sortByKey (e :: rest)) with
      | error err => rw [hall] at h; cases h
      | ok texts =>
        rw [hall] at h
        simp only [Except.ok.injEq] at h
        subst h
        simp

theorem encodeRequestBody_isSome {enc : Encoders σ μ ρ} {depth : Nat}
    {requestBody : Option (RequestBodyDetails μ)} {out : Option String}
    (h : encodeRequestBody enc depth requestBody = Except.ok out) :
    out.isSome = true ↔ requestBody.isSome = true := by
  cases requestBody with
  | none =>
    simp only [encodeRequestBody, Except.ok.injEq] at h
    subst h
    simp
  | some body =>
    simp only [encodeRequestBody] at h
    cases hc : encodeMap enc.quote enc.mediaType (depth + 1) body.Content with
    | error err => rw [hc] at h; cases h
    | ok content =>
      rw [hc] at h
      simp only [Except.ok.injEq] at h
      subst h
      simp

/-- The keys of the members of the top-level object: the three fixed keys,
then each optional key when its value is present, in the order of the
fields. -/
theorem keys_of_members (q : String → String) (a b c summary description : String)
    (parameters requestBody responses : Option String) :
    let keys := ([("operation_id", a), ("method", b), ("path", c)] ++
      omitEmptyString q "summary" summary ++ omitEmptyString q "description" description ++
      omitEmpty "parameters" parameters ++ omitEmpty "request_body" requestBody ++
      omitEmpty "responses" responses).map Prod.fst
    keys.Sublist apiDetailsKeys ∧
    "operation_id" ∈ keys ∧ "method" ∈ keys ∧ "path" ∈ keys ∧
    ("summary" ∈ keys ↔ summary ≠ "") ∧ ("description" ∈ keys ↔ description ≠ "") ∧
    ("parameters" ∈ keys ↔ parameters.isSome = true) ∧
    ("request_body" ∈ keys ↔ requestBody.isSome = true) ∧
    ("responses" ∈ keys ↔ responses.isSome = true) := by
  intro keys
  have hk : keys = ["operation_id", "method", "path"] ++
      (if summary = "" then [] else ["summary"]) ++
      (if description = "" then [] else ["description"]) ++
      (if parameters.isSome then ["parameters"] else []) ++
      (if requestBody.isSome then ["request_body"] else []) ++
      (if responses.isSome then ["responses"] else []) := by
    show List.map Prod.fst _ = _
    cases parameters <;> cases requestBody <;> cases responses <;>
      by_cases hs : summary = "" <;> by_cases hd : description = "" <;>
      simp [omitEmptyString, omitEmpty, hs, hd]
  rw [hk]
  cases parameters <;> cases requestBody <;> cases responses <;>
    by_cases hs : summary = "" <;> by_cases hd : description = "" <;>
    simp only [hs, hd, if_true, if_false, Option.isSome_none, Option.isSome_some,
      Bool.false_eq_true, apiDetailsKeys, ne_eq, not_true_eq_false, not_false_eq_true,
      List.append_nil, List.cons_append, List.nil_append, iff_true, iff_false] <;>
    decide

end SerializationLemmas

/-! ## The claims -/

section Claims

variable {σ μ ρ : Type}

/-- C1: for every document whose path map is a real map, every identifier that
is the `operationId` of exactly one (path, verb) operation, and every
iteration order of the path map and of the verb map, the lookup produces an
`APIDetails` whose `OperationID` is the identifier, whose `Method` is the name
of the verb slot holding the operation (one of the eight upper-case names),
whose `Path` is the path key, and whose `Summary` and `Description` are those
of the operation. -/
theorem C1_unique_operation_located (r : RangeOrder σ μ ρ) (hr : r.Valid)
    (s : OpenAPIServer σ μ ρ) (hwf : s.doc.Paths.WF) (id path method : String)
    (op : Operation σ μ ρ) (hcarries : Carries s.doc id path method op)
    (hunique : ∀ path' method' op', Carries s.doc id path' method' op' →
      path' = path ∧ method' = method) :
    method ∈ ["GET", "POST", "PUT", "DELETE", "PATCH", "HEAD", "OPTIONS", "TRACE"] ∧
    ∃ d, GetAPIDetails.apiDetails r s ⟨id⟩ = some d ∧
      d.OperationID = id ∧ d.Method = method ∧ d.Path = path ∧
      d.Summary = op.Summary ∧ d.Description = op.Description := by
  refine ⟨?_, ?_⟩
  · obtain ⟨pathItem, _, hop, _⟩ := hcarries
    exact operations_method hop
  · cases hd : GetAPIDetails.apiDetails r s ⟨id⟩ with
    | none =>
      exact absurd hcarries ((apiDetails_none_iff hr s ⟨id⟩).1 hd path method op)
    | some d =>
      obtain ⟨path', method', op', hc', hproj⟩ := apiDetails_some hr hd
      obtain ⟨hp, hm⟩ := hunique path' method' op' hc'
      subst hp hm
      have hop : op' = op := carries_same_operation hwf hcarries hc'
      subst hop
      obtain ⟨_, _, _, hid⟩ := hc'
      subst hproj
      exact ⟨_, rfl, hid, rfl, rfl, rfl, rfl⟩

/-- C1, witness: the document with `GET /pets/{id}`, `operationId: getPet`,
queried with `getPet` under the backwards iteration order. -/
theorem C1_unique_operation_located_witness :
    "GET" ∈ ["GET", "POST", "PUT", "DELETE", "PATCH", "HEAD", "OPTIONS", "TRACE"] ∧
    ∃ d, GetAPIDetails.apiDetails RangeOrder.reversed ⟨petsDoc⟩ ⟨"getPet"⟩ = some d ∧
      d.OperationID = "getPet" ∧ d.Method = "GET" ∧ d.Path = "/pets/{id}" ∧
      d.Summary = "Find a pet" ∧ d.Description = "Returns one pet" :=
  C1_unique_operation_located RangeOrder.reversed RangeOrder.reversed_valid ⟨petsDoc⟩
    (by decide) "getPet" "/pets/{id}" "GET" getPet
    (carries_of_carriers (by decide))
    (unique_of_carriers (show carriers petsDoc "getPet" = [("/pets/{id}", "GET", getPet)] by decide))

/-- C2: for every document and every identifier that no present operation
carries, under every iteration order the call returns the single text
`Operation with ID '<id>' not found in the OpenAPI specification`. -/
theorem C2_absent_identifier_not_found (r : RangeOrder σ μ ρ) (hr : r.Valid)
    (marshalIndent : APIDetails σ μ ρ → Except String String)
    (s : OpenAPIServer σ μ ρ) (id : String)
    (habsent : ∀ path method op, ¬ Carries s.doc id path method op) :
    GetAPIDetails r marshalIndent s ⟨id⟩ =
      (some ⟨[⟨"Operation with ID '" ++ id ++ "' not found in the OpenAPI specification"⟩],
        false⟩, none) := by
  have hnone := (apiDetails_none_iff hr s ⟨id⟩).2 habsent
  unfold GetAPIDetails
  rw [hnone]
  rfl

/-- C2, witness: `doesNotExist` against the pets document. -/
theorem C2_absent_identifier_not_found_witness :
    GetAPIDetails RangeOrder.reversed (fun _ => Except.ok "") ⟨petsDoc⟩ ⟨"doesNotExist"⟩ =
      (some ⟨[⟨"Operation with ID 'doesNotExist' not found in the OpenAPI specification"⟩],
        false⟩, none) :=
  C2_absent_identifier_not_found RangeOrder.reversed RangeOrder.reversed_valid
    (fun _ => Except.ok "") ⟨petsDoc⟩ "doesNotExist" (absent_of_carriers (by decide))

/-- C3, as amended: when one or more verbs of one path item carry the requested
identifier and no other path carries it, the lookup resolves, under every
iteration order, to the verb among them that the iteration over the verb map
visits first: the returned `Method` is that verb and the projected fields are
those of that verb's operation. -/
theorem C3_same_path_first_visited (r : RangeOrder σ μ ρ) (hr : r.Valid)
    (s : OpenAPIServer σ μ ρ) (hwf : s.doc.Paths.WF) (id path : String)
    (pathItem : PathItem σ μ ρ) (hpath : (path, pathItem) ∈ s.doc.Paths.entries)
    (hsome : ∃ method op, (method, some op) ∈ (operations pathItem).entries ∧
      op.OperationID = id)
    (hother : ∀ path' method op, Carries s.doc id path' method op → path' = path) :
    ∃ method op,
      (r.operations path (operations pathItem)).find? (holdsID id) = some (method, some op) ∧
      (method, some op) ∈ (operations pathItem).entries ∧ op.OperationID = id ∧
      GetAPIDetails.apiDetails r s ⟨id⟩ = some (project r path method op) ∧
      (project r path method op).Method = method ∧
      (project r path method op).Summary = op.Summary ∧
      (project r path method op).Description = op.Description := by
  cases hd : GetAPIDetails.apiDetails r s ⟨id⟩ with
  | none =>
    obtain ⟨method, op, hop, hid⟩ := hsome
    exact absurd ⟨pathItem, hpath, hop, hid⟩ ((apiDetails_none_iff hr s ⟨id⟩).1 hd path method op)
  | some d =>
    obtain ⟨path', pathItem', method, op, hmem, hfind, hop, hid, hproj⟩ := apiDetails_first hr hd
    have hp : path' = path := hother path' method op ⟨pathItem', hmem, hop, hid⟩
    subst hp
    have hitem : pathItem' = pathItem := GoMap.value_unique hwf hmem hpath
    subst hitem
    exact ⟨method, op, hfind, hop, hid, by rw [hproj], rfl, rfl, rfl⟩

/-- C3, witness: the two-verb document under the backwards order resolves to
the first of the two verbs that this order visits. -/
theorem C3_same_path_first_visited_witness :
    ∃ method op,
      (RangeOrder.reversed.operations "/items" (operations dupItem)).find? (holdsID "dup") =
        some (method, some op) ∧
      (method, some op) ∈ (operations dupItem).entries ∧ op.OperationID = "dup" ∧
      GetAPIDetails.apiDetails RangeOrder.reversed ⟨dupDoc⟩ ⟨"dup"⟩ =
        some (project RangeOrder.reversed "/items" method op) ∧
      (project RangeOrder.reversed "/items" method op).Method = method ∧
      (project RangeOrder.reversed "/items" method op).Summary = op.Summary ∧
      (project RangeOrder.reversed "/items" method op).Description = op.Description :=
  C3_same_path_first_visited RangeOrder.reversed RangeOrder.reversed_valid ⟨dupDoc⟩
    (by decide) "dup" "/items" dupItem (List.mem_singleton.2 rfl)
    ⟨"GET", dupGet, by decide, rfl⟩
    (fun path' method op hc => by
      obtain ⟨pathItem, hmem, _, _⟩ := hc
      have := List.mem_singleton.1 hmem
      exact (Prod.mk.inj this).1)

/-- C3, counterexample: in the two-verb document the identifier `dup` is on
`GET` and on `POST` of `/items` and on no other path; the backwards iteration
order is valid, and under it the lookup returns `POST` with the fields of the
`POST` operation, not those of `GET`, the earliest verb of the list. -/
theorem C3_counterexample :
    (RangeOrder.reversed : RangeOrder String String String).Valid ∧
    carriers dupDoc "dup" = [("/items", "GET", dupGet), ("/items", "POST", dupPost)] ∧
    (GetAPIDetails.apiDetails RangeOrder.reversed ⟨dupDoc⟩ ⟨"dup"⟩).map
      (fun d => (d.Method, d.Summary)) = some ("POST", "create item") ∧
    (GetAPIDetails.apiDetails RangeOrder.listed ⟨dupDoc⟩ ⟨"dup"⟩).map
      (fun d => (d.Method, d.Summary)) = some ("GET", "list items") :=
  ⟨RangeOrder.reversed_valid, by decide, by decide, by decide⟩

/-- C4, as amended: for every document whose maps are real maps and every
identifier carried by at most one (path, verb) operation, any two calls, under
any two iteration orders of the maps, return projections that are identical
field for field (`OperationID`, `Method`, `Path`, `Summary`, `Description`,
`Parameters` equal; `RequestBody` and `Responses` both absent or holding the
same entries), or both find nothing. -/
theorem C4_deterministic_without_duplicates (r₁ r₂ : RangeOrder σ μ ρ) (h₁ : r₁.Valid)
    (h₂ : r₂.Valid) (s : OpenAPIServer σ μ ρ) (hwf : s.doc.WF) (id : String)
    (hunique : ∀ path method op path' method' op', Carries s.doc id path method op →
      Carries s.doc id path' method' op' → path' = path ∧ method' = method) :
    Option.Rel APIDetails.Same (GetAPIDetails.apiDetails r₁ s ⟨id⟩)
      (GetAPIDetails.apiDetails r₂ s ⟨id⟩) := by
  by_cases hex : ∃ path method op, Carries s.doc id path method op
  · obtain ⟨path, method, op, hc⟩ := hex
    have hu : ∀ path' method' op', Carries s.doc id path' method' op' →
        path' = path ∧ method' = method :=
      fun path' method' op' hc' => hunique path method op path' method' op' hc hc'
    rw [apiDetails_of_unique h₁ hwf.1 hc hu, apiDetails_of_unique h₂ hwf.1 hc hu]
    exact Option.Rel.some (project_same h₁ h₂ path method (operation_wf_of_carries hwf hc))
  · have habsent : ∀ path method op, ¬ Carries s.doc id path method op :=
      fun path method op hc => hex ⟨path, method, op, hc⟩
    rw [(apiDetails_none_iff h₁ s ⟨id⟩).2 habsent, (apiDetails_none_iff h₂ s ⟨id⟩).2 habsent]
    exact Option.Rel.none

/-- C4, witness: `createOrder` in the orders document, under the listed and the
backwards order. -/
theorem C4_deterministic_without_duplicates_witness :
    Option.Rel APIDetails.Same
      (GetAPIDetails.apiDetails RangeOrder.listed ⟨ordersDoc⟩ ⟨"createOrder"⟩)
      (GetAPIDetails.apiDetails RangeOrder.reversed ⟨ordersDoc⟩ ⟨"createOrder"⟩) :=
  C4_deterministic_without_duplicates RangeOrder.listed RangeOrder.reversed
    RangeOrder.listed_valid RangeOrder.reversed_valid ⟨ordersDoc⟩ (by decide) "createOrder"
    (fun path method op path' method' op' hc hc' => by
      have hcar : carriers ordersDoc "createOrder" = [("/orders", "POST", createOrder)] := by
        decide
      obtain ⟨hp, hm⟩ := unique_of_carriers hcar path method op hc
      obtain ⟨hp', hm'⟩ := unique_of_carriers hcar path' method' op' hc'
      exact ⟨hp'.trans hp.symm, hm'.trans hm.symm⟩)

/-- C4, counterexample: in the two-verb document every operation is on the one
path `/items`, so no identifier is carried on two distinct paths; yet two
valid iteration orders return projections for `dup` that differ in `Method`
and `Summary`. -/
theorem C4_counterexample :
    dupDoc.Paths.keys = ["/items"] ∧
    (RangeOrder.listed : RangeOrder String String String).Valid ∧
    (RangeOrder.reversed : RangeOrder String String String).Valid ∧
    (GetAPIDetails.apiDetails RangeOrder.listed ⟨dupDoc⟩ ⟨"dup"⟩).map
      (fun d => (d.OperationID, d.Method, d.Path, d.Summary)) =
        some ("dup", "GET", "/items", "list items") ∧
    (GetAPIDetails.apiDetails RangeOrder.reversed ⟨dupDoc⟩ ⟨"dup"⟩).map
      (fun d => (d.OperationID, d.Method, d.Path, d.Summary)) =
        some ("dup", "POST", "/items", "create item") :=
  ⟨by decide, RangeOrder.listed_valid, RangeOrder.reversed_valid, by decide, by decide⟩

/-- C5, as amended: for every identifier present exactly once in the document,
`Parameters` is never an empty sequence and is present exactly when the
operation has a parameter whose reference is resolved; `RequestBody` is
present exactly when the operation declares a request body (a reference with
a value); `Responses` is not nil exactly when the response object of the
operation is not nil. In particular an operation with no resolved parameter,
no declared request body and a nil response object yields a projection with
all three fields absent. -/
theorem C5_optional_fields_presence (r : RangeOrder σ μ ρ) (hr : r.Valid)
    (s : OpenAPIServer σ μ ρ) (hwf : s.doc.Paths.WF) (id path method : String)
    (op : Operation σ μ ρ) (hcarries : Carries s.doc id path method op)
    (hunique : ∀ path' method' op', Carries s.doc id path' method' op' →
      path' = path ∧ method' = method) :
    ∃ d, GetAPIDetails.apiDetails r s ⟨id⟩ = some d ∧
      d.Parameters ≠ some [] ∧
      (d.Parameters.isSome = true ↔
        ∃ paramRefs paramRef, op.Parameters = some paramRefs ∧ paramRef ∈ paramRefs ∧
          paramRef.Value.isSome = true) ∧
      (d.RequestBody.isSome = true ↔
        ∃ requestBodyRef reqBody, op.RequestBody = some requestBodyRef ∧
          requestBodyRef.Value = some reqBody) ∧
      (d.Responses.isSome = true ↔ op.Responses.isSome = true) ∧
      ((¬ ∃ paramRefs paramRef, op.Parameters = some paramRefs ∧ paramRef ∈ paramRefs ∧
          paramRef.Value.isSome = true) →
        (¬ ∃ requestBodyRef reqBody, op.RequestBody = some requestBodyRef ∧
          requestBodyRef.Value = some reqBody) →
        op.Responses = none →
        d.Parameters = none ∧ d.RequestBody = none ∧ d.Responses = none) := by
  refine ⟨project r path method op, apiDetails_of_unique hr hwf hcarries hunique, ?_⟩
  have hp := projectParameters_sparse op.Parameters
  have hb := projectRequestBody_isSome_iff r op.RequestBody
  have hs := projectResponses_isSome r op.Responses
  refine ⟨hp.1, hp.2, hb, by rw [← hs]; rfl, ?_⟩
  intro hnp hnb hnr
  refine ⟨?_, ?_, ?_⟩
  · show projectParameters op.Parameters = none
    cases hq : projectParameters op.Parameters with
    | none => rfl
    | some l => exact absurd (hp.2.1 (by rw [hq]; rfl)) hnp
  · show projectRequestBody r op.RequestBody = none
    cases hq : projectRequestBody r op.RequestBody with
    | none => rfl
    | some b => exact absurd (hb.1 (by rw [hq]; rfl)) hnb
  · show projectResponses r op.Responses = none
    rw [hnr]
    rfl

/-- C5, witness: `createOrder` in the orders document has no parameter, a
declared request body and a response object. -/
theorem C5_optional_fields_presence_witness :
    ∃ d, GetAPIDetails.apiDetails RangeOrder.reversed ⟨ordersDoc⟩ ⟨"createOrder"⟩ = some d ∧
      d.Parameters ≠ some [] ∧
      (d.Parameters.isSome = true ↔
        ∃ paramRefs paramRef, createOrder.Parameters = some paramRefs ∧
          paramRef ∈ paramRefs ∧ paramRef.Value.isSome = true) ∧
      (d.RequestBody.isSome = true ↔
        ∃ requestBodyRef reqBody, createOrder.RequestBody = some requestBodyRef ∧
          requestBodyRef.Value = some reqBody) ∧
      (d.Responses.isSome = true ↔ createOrder.Responses.isSome = true) ∧
      ((¬ ∃ paramRefs paramRef, createOrder.Parameters = some paramRefs ∧
          paramRef ∈ paramRefs ∧ paramRef.Value.isSome = true) →
        (¬ ∃ requestBodyRef reqBody, createOrder.RequestBody = some requestBodyRef ∧
          requestBodyRef.Value = some reqBody) →
        createOrder.Responses = none →
        d.Parameters = none ∧ d.RequestBody = none ∧ d.Responses = none) :=
  C5_optional_fields_presence RangeOrder.reversed RangeOrder.reversed_valid ⟨ordersDoc⟩
    (by decide) "createOrder" "/orders" "POST" createOrder (carries_of_carriers (by decide))
    (unique_of_carriers
      (show carriers ordersDoc "createOrder" = [("/orders", "POST", createOrder)] by decide))

/-- C5, counterexample: `ping` is present exactly once; it has one parameter
attached, whose reference is not resolved, no request body, and a response
object with no response. Its projection has `Parameters` absent although a
parameter is attached, and `Responses` present as an empty mapping although no
response is declared. -/
theorem C5_counterexample :
    carriers pingDoc "ping" = [("/ping", "GET", ping)] ∧
    ping.Parameters.map List.length = some 1 ∧
    ping.RequestBody = none ∧
    ping.Responses = some ⟨[]⟩ ∧
    (GetAPIDetails.apiDetails RangeOrder.listed ⟨pingDoc⟩ ⟨"ping"⟩).map
      (fun d => (d.Parameters, d.RequestBody, d.Responses)) =
        some (none, none, some ⟨[]⟩) :=
  ⟨by decide, by decide, by decide, by decide, by decide⟩

/-- C6, as amended: for every matched operation, the projected `Parameters`
sequence preserves the declared order and covers every parameter whose
reference is resolved, skipping the others: it has as many elements as there
are resolved parameters, and its i-th element has the `Name`, `In`, `Required`
and `Description` of the i-th resolved parameter. When every reference of the
operation is resolved, it has the length of the source sequence and its i-th
element projects the i-th source parameter. -/
theorem C6_parameters_in_order (r : RangeOrder σ μ ρ) (hr : r.Valid)
    (s : OpenAPIServer σ μ ρ) (params : GetAPIDetailsParams) (d : APIDetails σ μ ρ)
    (h : GetAPIDetails.apiDetails r s params = some d) :
    ∃ path method op, Carries s.doc params.OperationID path method op ∧
      d.Path = path ∧ d.Method = method ∧
      (d.Parameters.getD []).length = (resolved (op.Parameters.getD [])).length ∧
      (∀ (i : Nat) (param : Parameter σ), (resolved (op.Parameters.getD []))[i]? = some param →
        ∃ pd : ParameterDetails σ, (d.Parameters.getD [])[i]? = some pd ∧ pd.Name = param.Name ∧
          pd.In = param.In ∧ pd.Required = param.Required ∧
          pd.Description = param.Description) ∧
      ((∀ paramRef ∈ op.Parameters.getD [], paramRef.Value.isSome = true) →
        (d.Parameters.getD []).length = (op.Parameters.getD []).length ∧
        ∀ (i : Nat) (paramRef : ParameterRef σ), (op.Parameters.getD [])[i]? = some paramRef →
          ∃ (param : Parameter σ) (pd : ParameterDetails σ), paramRef.Value = some param ∧
            (d.Parameters.getD [])[i]? = some pd ∧ pd.Name = param.Name ∧
            pd.In = param.In ∧ pd.Required = param.Required ∧
            pd.Description = param.Description) := by
  obtain ⟨path, method, op, hc, hproj⟩ := apiDetails_some hr h
  subst hproj
  have hout : ((project r path method op).Parameters.getD []) =
      (resolved (op.Parameters.getD [])).map paramDetails := projectParameters_getD op.Parameters
  have hith : ∀ (i : Nat) (param : Parameter σ), (resolved (op.Parameters.getD []))[i]? = some param →
      ∃ pd : ParameterDetails σ, ((project r path method op).Parameters.getD [])[i]? = some pd ∧
        pd.Name = param.Name ∧ pd.In = param.In ∧ pd.Required = param.Required ∧
        pd.Description = param.Description := by
    intro i param hi
    refine ⟨paramDetails param, ?_, rfl, rfl, rfl, rfl⟩
    rw [hout, List.getElem?_map, hi]
    rfl
  refine ⟨path, method, op, hc, rfl, rfl, ?_, hith, ?_⟩
  · rw [hout, List.length_map]
  · intro hall
    have hmap := map_value_of_all_resolved (op.Parameters.getD []) hall
    have hlen : (resolved (op.Parameters.getD [])).length = (op.Parameters.getD []).length := by
      have := congrArg List.length hmap
      simp only [List.length_map] at this
      exact this.symm
    refine ⟨by rw [hout, List.length_map, hlen], ?_⟩
    intro i paramRef hi
    have h1 : (List.map (fun paramRef => paramRef.Value) (op.Parameters.getD []))[i]? =
        some paramRef.Value := by
      rw [List.getElem?_map, hi]; rfl
    rw [hmap, List.getElem?_map] at h1
    cases hres : (resolved (op.Parameters.getD []))[i]? with
    | none => rw [hres] at h1; cases h1
    | some param =>
      rw [hres] at h1
      simp only [Option.map_some', Option.some.injEq] at h1
      obtain ⟨pd, hpd, hfields⟩ := hith i param hres
      exact ⟨param, pd, h1.symm, hpd, hfields⟩

/-- C6, witness: `searchPets`, whose first parameter reference is not resolved. -/
theorem C6_parameters_in_order_witness :
    ∃ path method op, Carries searchDoc "searchPets" path method op ∧
      "/pets" = path ∧ "GET" = method ∧
      ((projectParameters searchPets.Parameters).getD []).length =
        (resolved (op.Parameters.getD [])).length ∧
      (∀ (i : Nat) (param : Parameter String), (resolved (op.Parameters.getD []))[i]? = some param →
        ∃ pd : ParameterDetails String, ((projectParameters searchPets.Parameters).getD [])[i]? = some pd ∧
          pd.Name = param.Name ∧ pd.In = param.In ∧ pd.Required = param.Required ∧
          pd.Description = param.Description) ∧
      ((∀ paramRef ∈ op.Parameters.getD [], paramRef.Value.isSome = true) →
        ((projectParameters searchPets.Parameters).getD []).length =
          (op.Parameters.getD []).length ∧
        ∀ (i : Nat) (paramRef : ParameterRef String), (op.Parameters.getD [])[i]? = some paramRef →
          ∃ (param : Parameter String) (pd : ParameterDetails String), paramRef.Value = some param ∧
            ((projectParameters searchPets.Parameters).getD [])[i]? = some pd ∧
            pd.Name = param.Name ∧ pd.In = param.In ∧ pd.Required = param.Required ∧
            pd.Description = param.Description) :=
  C6_parameters_in_order RangeOrder.listed RangeOrder.listed_valid ⟨searchDoc⟩ ⟨"searchPets"⟩
    (project RangeOrder.listed "/pets" "GET" searchPets) (by decide)

/-- C6, counterexample: `searchPets` has three parameters attached, the first
with a reference that is not resolved; its projection has two parameters, and
the first projected parameter is `limit`, the second one of the source. -/
theorem C6_counterexample :
    carriers searchDoc "searchPets" = [("/pets", "GET", searchPets)] ∧
    searchPets.Parameters.map (fun refs => refs.map fun ref => ref.Value.map (fun p => p.Name)) =
      some [none, some "limit", some "tag"] ∧
    (GetAPIDetails.apiDetails RangeOrder.listed ⟨searchDoc⟩ ⟨"searchPets"⟩).map
      (fun d => (d.Parameters.getD []).map fun pd => pd.Name) = some ["limit", "tag"] :=
  ⟨by decide, by decide, by decide⟩

/-- C7: for every matched operation of a document whose maps are real maps,
when the operation declares responses the projected `Responses` mapping has
as keys exactly the status strings of the source entries whose value is
resolved, and maps each such key to the response value of the source; entries
with a nil value contribute no key. -/
theorem C7_responses_resolved_entries (r : RangeOrder σ μ ρ) (hr : r.Valid)
    (s : OpenAPIServer σ μ ρ) (hwf : s.doc.WF) (params : GetAPIDetailsParams)
    (d : APIDetails σ μ ρ) (h : GetAPIDetails.apiDetails r s params = some d) :
    ∃ path method op, Carries s.doc params.OperationID path method op ∧
      d.Path = path ∧ d.Method = method ∧
      ∀ m, op.Responses = some m →
        ∃ out, d.Responses = some out ∧ out.WF ∧
          (∀ status : String, status ∈ out.keys ↔
            ∃ (responseRef : ResponseRef ρ) (value : ρ),
              (status, responseRef) ∈ m.entries ∧ responseRef.Value = some value) ∧
          (∀ (status : String) (value : ρ), out.get? status = some value ↔
            ∃ responseRef : ResponseRef ρ,
              (status, responseRef) ∈ m.entries ∧ responseRef.Value = some value) := by
  obtain ⟨path, method, op, hc, hproj⟩ := apiDetails_some hr h
  subst hproj
  refine ⟨path, method, op, hc, rfl, rfl, ?_⟩
  intro m hm
  have hmwf : m.WF := (operation_wf_of_carries hwf hc).1 m hm
  have hperm := hr.2.2.2 m
  have hnd := GoMap.nodup_keys_filterMap (fun e : String × ResponseRef ρ => e.2.Value)
    (r.responses m) (visit_nodup hperm hmwf)
  have hentry : ∀ (status : String) (value : ρ),
      (status, value) ∈ (r.responses m).filterMap (fun e => e.2.Value.map fun v => (e.1, v)) ↔
        ∃ responseRef : ResponseRef ρ,
          (status, responseRef) ∈ m.entries ∧ responseRef.Value = some value := by
    intro status value
    rw [mem_filterMap_value]
    constructor
    · rintro ⟨ref, hmem, hv⟩
      exact ⟨ref, hperm.mem_iff.1 hmem, hv⟩
    · rintro ⟨ref, hmem, hv⟩
      exact ⟨ref, hperm.mem_iff.2 hmem, hv⟩
  refine ⟨_, ?_, hnd, ?_, ?_⟩
  · show projectResponses r op.Responses = _
    rw [hm, projectResponses_some hr m hmwf]
  · intro status
    rw [GoMap.mem_keys_iff]
    constructor
    · rintro ⟨value, hmem⟩
      obtain ⟨ref, hmem', hv⟩ := (hentry status value).1 hmem
      exact ⟨ref, value, hmem', hv⟩
    · rintro ⟨ref, value, hmem, hv⟩
      exact ⟨value, (hentry status value).2 ⟨ref, hmem, hv⟩⟩
  · intro status value
    rw [← hentry status value]
    exact GoMap.getEntries_eq_some_iff hnd

/-- C7, witness: `POST /orders`, `createOrder`, with responses `201` and `400`
and an unresolved `default`: the projected responses have exactly the keys
`201` and `400`. -/
theorem C7_responses_resolved_entries_witness :
    (∃ path method op, Carries ordersDoc "createOrder" path method op ∧
      "/orders" = path ∧ "POST" = method ∧
      ∀ m, op.Responses = some m →
        ∃ out, (project RangeOrder.reversed "/orders" "POST" createOrder).Responses = some out ∧ out.WF ∧
          (∀ status : String, status ∈ out.keys ↔
            ∃ (responseRef : ResponseRef String) (value : String),
              (status, responseRef) ∈ m.entries ∧ responseRef.Value = some value) ∧
          (∀ (status : String) (value : String), out.get? status = some value ↔
            ∃ responseRef : ResponseRef String,
              (status, responseRef) ∈ m.entries ∧ responseRef.Value = some value)) ∧
    ((GetAPIDetails.apiDetails RangeOrder.reversed ⟨ordersDoc⟩ ⟨"createOrder"⟩).bind
      fun d => d.Responses.map fun out => out.entries) =
        some [("400", "bad request"), ("201", "created")] :=
  ⟨C7_responses_resolved_entries RangeOrder.reversed RangeOrder.reversed_valid ⟨ordersDoc⟩
    (by decide) ⟨"createOrder"⟩ (project RangeOrder.reversed "/orders" "POST" createOrder)
    (by decide), by decide⟩

/-- C8: for every matched operation of a document whose maps are real maps,
when the operation declares a request body (a reference with a value) the
projected `RequestBody` carries the `Description` and `Required` of the source
and a `Content` mapping with the same media-type keys, each mapped to the
media-type object of the source; when the operation declares none,
`RequestBody` is absent. -/
theorem C8_request_body_copied (r : RangeOrder σ μ ρ) (hr : r.Valid)
    (s : OpenAPIServer σ μ ρ) (hwf : s.doc.WF) (params : GetAPIDetailsParams)
    (d : APIDetails σ μ ρ) (h : GetAPIDetails.apiDetails r s params = some d) :
    ∃ path method op, Carries s.doc params.OperationID path method op ∧
      d.Path = path ∧ d.Method = method ∧
      (∀ (requestBodyRef : RequestBodyRef μ) (reqBody : RequestBody μ),
        op.RequestBody = some requestBodyRef → requestBodyRef.Value = some reqBody →
        ∃ (body : RequestBodyDetails μ) (content : GoMap μ), d.RequestBody = some body ∧
          body.Description = reqBody.Description ∧ body.Required = reqBody.Required ∧
          body.Content = some content ∧ content.WF ∧ content.Same reqBody.Content ∧
          (∀ mediaType : String, mediaType ∈ content.keys ↔ mediaType ∈ reqBody.Content.keys) ∧
          (∀ mediaType : String, content.get? mediaType = reqBody.Content.get? mediaType)) ∧
      ((¬ ∃ (requestBodyRef : RequestBodyRef μ) (reqBody : RequestBody μ),
          op.RequestBody = some requestBodyRef ∧ requestBodyRef.Value = some reqBody) →
        d.RequestBody = none) := by
  obtain ⟨path, method, op, hc, hproj⟩ := apiDetails_some hr h
  subst hproj
  refine ⟨path, method, op, hc, rfl, rfl, ?_, ?_⟩
  · intro ref reqBody hb hv
    have hcwf : reqBody.Content.WF := (operation_wf_of_carries hwf hc).2 ref hb reqBody hv
    have hperm := hr.2.2.1 reqBody.Content
    refine ⟨{ Description := reqBody.Description, Required := reqBody.Required,
              Content := some ⟨r.content reqBody.Content⟩ },
      ⟨r.content reqBody.Content⟩, ?_, rfl, rfl, rfl, visit_nodup hperm hcwf, hperm, ?_, ?_⟩
    · show projectRequestBody r op.RequestBody = _
      rw [hb, projectRequestBody_some hr ref reqBody hv hcwf]
    · intro mediaType
      exact (hperm.map Prod.fst).mem_iff
    · intro mediaType
      exact GoMap.getEntries_perm hperm hcwf mediaType
  · intro hnone
    exact (projectRequestBody_eq_none_iff r op.RequestBody).2 hnone

/-- C8, witness: `createOrder` has a required JSON request body, and its
projection has `Required` true and the one media type of the source. -/
theorem C8_request_body_copied_witness :
    (∃ path method op, Carries ordersDoc "createOrder" path method op ∧
      "/orders" = path ∧ "POST" = method ∧
      (∀ (requestBodyRef : RequestBodyRef String) (reqBody : RequestBody String),
        op.RequestBody = some requestBodyRef → requestBodyRef.Value = some reqBody →
        ∃ (body : RequestBodyDetails String) (content : GoMap String),
          (project RangeOrder.reversed "/orders" "POST" createOrder).RequestBody = some body ∧
          body.Description = reqBody.Description ∧ body.Required = reqBody.Required ∧
          body.Content = some content ∧ content.WF ∧ content.Same reqBody.Content ∧
          (∀ mediaType : String, mediaType ∈ content.keys ↔ mediaType ∈ reqBody.Content.keys) ∧
          (∀ mediaType : String, content.get? mediaType = reqBody.Content.get? mediaType)) ∧
      ((¬ ∃ (requestBodyRef : RequestBodyRef String) (reqBody : RequestBody String),
          op.RequestBody = some requestBodyRef ∧ requestBodyRef.Value = some reqBody) →
        (project RangeOrder.reversed "/orders" "POST" createOrder).RequestBody = none)) ∧
    ((GetAPIDetails.apiDetails RangeOrder.reversed ⟨ordersDoc⟩ ⟨"createOrder"⟩).bind
      fun d => d.RequestBody.map fun body => (body.Required, body.Content)) =
        some (true, some ⟨[("application/json", "order media type")]⟩) :=
  ⟨C8_request_body_copied RangeOrder.reversed RangeOrder.reversed_valid ⟨ordersDoc⟩
    (by decide) ⟨"createOrder"⟩ (project RangeOrder.reversed "/orders" "POST" createOrder)
    (by decide), by decide⟩

/-- C9: for every document, request, iteration order and marshaller, the call
returns a nil error and a result with exactly one text item and no error
flag, in each of the three outcomes: not found, encoding failure, match. -/
theorem C9_one_text_never_an_error (r : RangeOrder σ μ ρ)
    (marshalIndent : APIDetails σ μ ρ → Except String String)
    (s : OpenAPIServer σ μ ρ) (params : GetAPIDetailsParams) :
    ∃ text : String,
      GetAPIDetails r marshalIndent s params = (some ⟨[⟨text⟩], false⟩, none) ∧
      ((GetAPIDetails.apiDetails r s params = none ∧
          text = "Operation with ID '" ++ params.OperationID ++
            "' not found in the OpenAPI specification") ∨
        (∃ details err, GetAPIDetails.apiDetails r s params = some details ∧
          marshalIndent details = Except.error err ∧
          text = "Failed to marshal API details: " ++ err) ∨
        (∃ details jsonData, GetAPIDetails.apiDetails r s params = some details ∧
          marshalIndent details = Except.ok jsonData ∧ text = jsonData)) := by
  unfold GetAPIDetails
  cases hd : GetAPIDetails.apiDetails r s params with
  | none => exact ⟨_, rfl, Or.inl ⟨rfl, rfl⟩⟩
  | some details =>
    cases hm : marshalIndent details with
    | error err => exact ⟨_, by simp only [hm]; rfl, Or.inr (Or.inl ⟨details, err, rfl, hm, rfl⟩)⟩
    | ok jsonData =>
      exact ⟨_, by simp only [hm]; rfl, Or.inr (Or.inr ⟨details, jsonData, rfl, hm, rfl⟩)⟩

/-- C10: for every projected parameter of a matched operation, the `Schema`
field is attached exactly when the source parameter has a schema (a schema
reference with a value), and is then the schema value of the source; a
parameter without a schema has `Schema` absent. -/
theorem C10_schema_attached_iff_present (r : RangeOrder σ μ ρ) (hr : r.Valid)
    (s : OpenAPIServer σ μ ρ) (params : GetAPIDetailsParams) (d : APIDetails σ μ ρ)
    (h : GetAPIDetails.apiDetails r s params = some d) :
    ∃ path method op, Carries s.doc params.OperationID path method op ∧
      d.Path = path ∧ d.Method = method ∧
      ∀ (i : Nat) (pd : ParameterDetails σ), (d.Parameters.getD [])[i]? = some pd →
        ∃ param : Parameter σ, (resolved (op.Parameters.getD []))[i]? = some param ∧
          pd.Name = param.Name ∧
          (pd.Schema.isSome = true ↔
            ∃ (schemaRef : SchemaRef σ) (value : σ),
              param.Schema = some schemaRef ∧ schemaRef.Value = some value) ∧
          (∀ (schemaRef : SchemaRef σ) (value : σ),
            param.Schema = some schemaRef → schemaRef.Value = some value →
              pd.Schema = some value) ∧
          ((¬ ∃ (schemaRef : SchemaRef σ) (value : σ),
              param.Schema = some schemaRef ∧ schemaRef.Value = some value) →
            pd.Schema = none) := by
  obtain ⟨path, method, op, hc, hproj⟩ := apiDetails_some hr h
  subst hproj
  refine ⟨path, method, op, hc, rfl, rfl, ?_⟩
  intro i pd hi
  have hout : ((project r path method op).Parameters.getD []) =
      (resolved (op.Parameters.getD [])).map paramDetails := projectParameters_getD op.Parameters
  rw [hout, List.getElem?_map] at hi
  cases hres : (resolved (op.Parameters.getD []))[i]? with
  | none => rw [hres] at hi; cases hi
  | some param =>
    rw [hres] at hi
    simp only [Option.map_some', Option.some.injEq] at hi
    subst hi
    have hs := paramDetails_schema param
    refine ⟨param, rfl, rfl, hs.1, hs.2, ?_⟩
    intro hnone
    cases hq : (paramDetails param).Schema with
    | none => rfl
    | some v => exact absurd (hs.1.1 (by rw [hq]; rfl)) hnone

/-- C10, witness: `searchPets`; `limit` has a schema, `tag` has a schema
reference without a value, and the projection attaches a schema to `limit`
only. -/
theorem C10_schema_attached_iff_present_witness :
    (∃ path method op, Carries searchDoc "searchPets" path method op ∧
      "/pets" = path ∧ "GET" = method ∧
      ∀ (i : Nat) (pd : ParameterDetails String),
        ((projectParameters searchPets.Parameters).getD [])[i]? = some pd →
        ∃ param : Parameter String, (resolved (op.Parameters.getD []))[i]? = some param ∧
          pd.Name = param.Name ∧
          (pd.Schema.isSome = true ↔
            ∃ (schemaRef : SchemaRef String) (value : String),
              param.Schema = some schemaRef ∧ schemaRef.Value = some value) ∧
          (∀ (schemaRef : SchemaRef String) (value : String),
            param.Schema = some schemaRef → schemaRef.Value = some value →
              pd.Schema = some value) ∧
          ((¬ ∃ (schemaRef : SchemaRef String) (value : String),
              param.Schema = some schemaRef ∧ schemaRef.Value = some value) →
            pd.Schema = none)) ∧
    ((GetAPIDetails.apiDetails RangeOrder.listed ⟨searchDoc⟩ ⟨"searchPets"⟩).map
      fun d => (d.Parameters.getD []).map fun pd => (pd.Name, pd.Schema)) =
        some [("limit", some "integer schema"), ("tag", none)] :=
  ⟨C10_schema_attached_iff_present RangeOrder.listed RangeOrder.listed_valid ⟨searchDoc⟩
    ⟨"searchPets"⟩ (project RangeOrder.listed "/pets" "GET" searchPets) (by decide),
    by decide⟩

/-- C14: first match wins, also with duplicated identifiers. For every
document, identifier and iteration order, a returned projection is the
projection of one operation of the document, held by a path item of the
document at one of its verbs and with exactly the requested `operationId`:
the path items visited before its path hold no operation with the identifier
at any verb, it is the first entry with the identifier that the iteration over
the verbs of its path visits, and every field of the projection is computed
from that path key, verb and operation alone. A projection is returned
whenever some path item of the document holds, at some verb, an operation with
the identifier. Presence at a verb is read on the fields of the path item
(`PresentAt`). -/
theorem C14_first_match_one_operation (r : RangeOrder σ μ ρ) (hr : r.Valid)
    (s : OpenAPIServer σ μ ρ) (id : String) :
    (∀ d, GetAPIDetails.apiDetails r s ⟨id⟩ = some d →
      ∃ before path pathItem after method op,
        r.paths s.doc.Paths = before ++ (path, pathItem) :: after ∧
        (∀ e ∈ before, ∀ (method' : String) (op' : Operation σ μ ρ),
          PresentAt e.2 method' op' → op'.OperationID ≠ id) ∧
        (r.operations path (operations pathItem)).find? (holdsID id) =
          some (method, some op) ∧
        (path, pathItem) ∈ s.doc.Paths.entries ∧
        PresentAt pathItem method op ∧ op.OperationID = id ∧
        d = project r path method op ∧
        d.OperationID = id ∧ d.Method = method ∧ d.Path = path ∧
        d.Summary = op.Summary ∧ d.Description = op.Description ∧
        d.Parameters = projectParameters op.Parameters ∧
        d.RequestBody = projectRequestBody r op.RequestBody ∧
        d.Responses = projectResponses r op.Responses) ∧
    ((∃ path pathItem method op, (path, pathItem) ∈ s.doc.Paths.entries ∧
        PresentAt pathItem method op ∧ op.OperationID = id) →
      ∃ d, GetAPIDetails.apiDetails r s ⟨id⟩ = some d) := by
  constructor
  · intro d hd
    obtain ⟨before, path, pathItem, after, hl, hbefore, hscan⟩ := scanPaths_first r id _ d hd
    obtain ⟨method, op, hfind, hproj⟩ := scanOperations_first r id path _ d hscan
    have hop : (method, some op) ∈ (operations pathItem).entries :=
      (hr.2.1 _ _).mem_iff.1 (List.mem_of_find?_eq_some hfind)
    have hid : op.OperationID = id := by
      have := List.find?_some hfind
      simpa [holdsID] using this
    have hmem : (path, pathItem) ∈ s.doc.Paths.entries := by
      apply (hr.1 _).mem_iff.1
      rw [hl]
      exact List.mem_append_right _ (List.mem_cons_self _ _)
    refine ⟨before, path, pathItem, after, method, op, hl, ?_, hfind, hmem,
      (presentAt_iff_mem_operations pathItem method op).2 hop, hid, hproj, ?_⟩
    · intro e he method' op' hpresent
      have hnone := hbefore e he
      rw [scanOperations_none_iff] at hnone
      exact hnone method' op'
        ((hr.2.1 _ _).mem_iff.2 ((presentAt_iff_mem_operations e.2 method' op').1 hpresent))
    · subst hproj
      exact ⟨hid, rfl, rfl, rfl, rfl, rfl, rfl, rfl⟩
  · rintro ⟨path, pathItem, method, op, hmem, hpresent, hid⟩
    have hc : Carries s.doc id path method op :=
      ⟨pathItem, hmem, (presentAt_iff_mem_operations pathItem method op).1 hpresent, hid⟩
    cases hd : GetAPIDetails.apiDetails r s ⟨id⟩ with
    | none => exact absurd hc ((apiDetails_none_iff hr s ⟨id⟩).1 hd path method op)
    | some d => exact ⟨d, rfl⟩

/-- C14, witness: the two-verb document, identifier `dup`, backwards order.
The path item of `/items` holds `dup` at `GET`, so a projection is returned;
the lookup evaluates to the projection of the `POST` operation, the first
holder that this order visits, and that projection has the first-match
properties. -/
theorem C14_first_match_one_operation_witness :
    (∃ d, GetAPIDetails.apiDetails RangeOrder.reversed ⟨dupDoc⟩ ⟨"dup"⟩ = some d) ∧
    GetAPIDetails.apiDetails RangeOrder.reversed ⟨dupDoc⟩ ⟨"dup"⟩ =
      some { OperationID := "dup", Method := "POST", Path := "/items",
             Summary := "create item", Description := "", Parameters := none,
             RequestBody := none, Responses := none } ∧
    (∃ before path pathItem after method op,
        RangeOrder.reversed.paths dupDoc.Paths = before ++ (path, pathItem) :: after ∧
        (∀ e ∈ before, ∀ (method' : String) (op' : Operation String String String),
          PresentAt e.2 method' op' → op'.OperationID ≠ "dup") ∧
        (RangeOrder.reversed.operations path (operations pathItem)).find? (holdsID "dup") =
          some (method, some op) ∧
        (path, pathItem) ∈ dupDoc.Paths.entries ∧
        PresentAt pathItem method op ∧ op.OperationID = "dup" ∧
        project RangeOrder.reversed "/items" "POST" dupPost =
          project RangeOrder.reversed path method op ∧
        (project RangeOrder.reversed "/items" "POST" dupPost).OperationID = "dup" ∧
        (project RangeOrder.reversed "/items" "POST" dupPost).Method = method ∧
        (project RangeOrder.reversed "/items" "POST" dupPost).Path = path ∧
        (project RangeOrder.reversed "/items" "POST" dupPost).Summary = op.Summary ∧
        (project RangeOrder.reversed "/items" "POST" dupPost).Description = op.Description ∧
        (project RangeOrder.reversed "/items" "POST" dupPost).Parameters =
          projectParameters op.Parameters ∧
        (project RangeOrder.reversed "/items" "POST" dupPost).RequestBody =
          projectRequestBody (RangeOrder.reversed : RangeOrder String String String)
            op.RequestBody ∧
        (project RangeOrder.reversed "/items" "POST" dupPost).Responses =
          projectResponses (RangeOrder.reversed : RangeOrder String String String)
            op.Responses) :=
  ⟨(C14_first_match_one_operation RangeOrder.reversed RangeOrder.reversed_valid
      ⟨dupDoc⟩ "dup").2
      ⟨"/items", dupItem, "GET", dupGet, List.mem_singleton.2 rfl, Or.inl ⟨rfl, rfl⟩, rfl⟩,
    by decide,
    (C14_first_match_one_operation RangeOrder.reversed RangeOrder.reversed_valid
      ⟨dupDoc⟩ "dup").1 (project RangeOrder.reversed "/items" "POST" dupPost) (by decide)⟩

/-- C15: an operation that declares no `operationId` is matched by the
empty-string query. For every document with a present operation whose
`operationId` is empty, the call with `""` returns the projection of such an
operation, with `OperationID` empty, and not the not-found outcome; the
not-found outcome for `""` occurs exactly when every present operation has a
non-empty `operationId`. -/
theorem C15_empty_identifier_matches (r : RangeOrder σ μ ρ) (hr : r.Valid)
    (marshalIndent : APIDetails σ μ ρ → Except String String) (s : OpenAPIServer σ μ ρ) :
    ((∃ path method op, Carries s.doc "" path method op) →
      ∃ d path method op, GetAPIDetails.apiDetails r s ⟨""⟩ = some d ∧
        Carries s.doc "" path method op ∧ d = project r path method op ∧
        d.OperationID = "" ∧
        GetAPIDetails r marshalIndent s ⟨""⟩ =
          match marshalIndent d with
          | Except.error err =>
            (some (textResult ("Failed to marshal API details: " ++ err)), none)
          | Except.ok jsonData => (some (textResult jsonData), none)) ∧
    (GetAPIDetails.apiDetails r s ⟨""⟩ = none ↔
      ∀ (path : String) (pathItem : PathItem σ μ ρ) (method : String) (op : Operation σ μ ρ),
        (path, pathItem) ∈ s.doc.Paths.entries →
        (method, some op) ∈ (operations pathItem).entries → op.OperationID ≠ "") := by
  constructor
  · rintro ⟨path, method, op, hc⟩
    cases hd : GetAPIDetails.apiDetails r s ⟨""⟩ with
    | none => exact absurd hc ((apiDetails_none_iff hr s ⟨""⟩).1 hd path method op)
    | some d =>
      obtain ⟨path', method', op', hc', hproj⟩ := apiDetails_some hr hd
      refine ⟨d, path', method', op', rfl, hc', hproj, ?_,
        GetAPIDetails_of_apiDetails r marshalIndent s ⟨""⟩ d hd⟩
      obtain ⟨_, _, _, hid⟩ := hc'
      rw [hproj]
      exact hid
  · rw [apiDetails_none_iff hr s ⟨""⟩]
    constructor
    · intro h path pathItem method op hmem hop hid
      exact h path method op ⟨pathItem, hmem, hop, hid⟩
    · rintro h path method op ⟨pathItem, hmem, hop, hid⟩
      exact h path pathItem method op hmem hop hid

/-- C15, witness: the document with `GET /health`, whose operation declares no
`operationId`; the empty query returns its projection. -/
theorem C15_empty_identifier_matches_witness :
    (((∃ path method op, Carries healthDoc "" path method op) →
      ∃ d path method op,
        GetAPIDetails.apiDetails RangeOrder.listed ⟨healthDoc⟩ ⟨""⟩ = some d ∧
        Carries healthDoc "" path method op ∧ d = project RangeOrder.listed path method op ∧
        d.OperationID = "" ∧
        GetAPIDetails RangeOrder.listed (fun _ => Except.ok "{}") ⟨healthDoc⟩ ⟨""⟩ =
          match (fun _ => Except.ok "{}" : APIDetails String String String →
              Except String String) d with
          | Except.error err =>
            (some (textResult ("Failed to marshal API details: " ++ err)), none)
          | Except.ok jsonData => (some (textResult jsonData), none)) ∧
    (GetAPIDetails.apiDetails RangeOrder.listed ⟨healthDoc⟩ ⟨""⟩ = none ↔
      ∀ (path : String) (pathItem : PathItem String String String) (method : String)
        (op : Operation String String String),
        (path, pathItem) ∈ healthDoc.Paths.entries →
        (method, some op) ∈ (operations pathItem).entries → op.OperationID ≠ "")) ∧
    (GetAPIDetails.apiDetails RangeOrder.listed ⟨healthDoc⟩ ⟨""⟩).map
      (fun d => (d.OperationID, d.Method, d.Path, d.Summary)) =
        some ("", "GET", "/health", "liveness") :=
  ⟨C15_empty_identifier_matches RangeOrder.listed RangeOrder.listed_valid
    (fun _ => Except.ok "{}") ⟨healthDoc⟩, by decide⟩

/-- C16: the result depends on the path keys and the eight verb operations
only. For any two documents whose visited path entries have, position by
position, the same key and the same eight operations (they may differ in
anything else attached to the path items, such as parameters shared by all
verbs), the scan and the call return the same result for every identifier;
and the projected `Parameters` are computed from the parameters of the matched
operation alone. -/
theorem C16_path_item_data_ignored (r : RangeOrder σ μ ρ) (hr : r.Valid)
    (marshalIndent : APIDetails σ μ ρ → Except String String)
    (s₁ s₂ : OpenAPIServer σ μ ρ)
    (hpaths : List.Forall₂ SameOperations (r.paths s₁.doc.Paths) (r.paths s₂.doc.Paths))
    (params : GetAPIDetailsParams) :
    GetAPIDetails.apiDetails r s₁ params = GetAPIDetails.apiDetails r s₂ params ∧
    GetAPIDetails r marshalIndent s₁ params = GetAPIDetails r marshalIndent s₂ params ∧
    (∀ d, GetAPIDetails.apiDetails r s₂ params = some d →
      ∃ path method op, Carries s₂.doc params.OperationID path method op ∧
        d.Parameters = projectParameters op.Parameters) := by
  have hscan : GetAPIDetails.apiDetails r s₁ params = GetAPIDetails.apiDetails r s₂ params :=
    scanPaths_congr r params.OperationID _ _ hpaths
  refine ⟨hscan, ?_, ?_⟩
  · unfold GetAPIDetails
    rw [hscan]
  · intro d hd
    obtain ⟨path, method, op, hc, hproj⟩ := apiDetails_some hr hd
    exact ⟨path, method, op, hc, by rw [hproj]; rfl⟩

/-- C16, witness: the pets document and the same document with a summary and a
parameter attached to the path item; `getPet` projects to the same result,
whose only parameter is the `id` of the operation. -/
theorem C16_path_item_data_ignored_witness :
    (GetAPIDetails.apiDetails RangeOrder.listed ⟨petsDoc⟩ ⟨"getPet"⟩ =
      GetAPIDetails.apiDetails RangeOrder.listed ⟨petsDocShared⟩ ⟨"getPet"⟩ ∧
    GetAPIDetails RangeOrder.listed (fun _ => Except.ok "{}") ⟨petsDoc⟩ ⟨"getPet"⟩ =
      GetAPIDetails RangeOrder.listed (fun _ => Except.ok "{}") ⟨petsDocShared⟩ ⟨"getPet"⟩ ∧
    (∀ d, GetAPIDetails.apiDetails RangeOrder.listed ⟨petsDocShared⟩ ⟨"getPet"⟩ = some d →
      ∃ path method op, Carries petsDocShared "getPet" path method op ∧
        d.Parameters = projectParameters op.Parameters)) ∧
    petsDocShared ≠ petsDoc ∧
    (GetAPIDetails.apiDetails RangeOrder.listed ⟨petsDocShared⟩ ⟨"getPet"⟩).map
      (fun d => (d.Parameters.getD []).map fun pd => pd.Name) = some ["id"] :=
  ⟨C16_path_item_data_ignored RangeOrder.listed RangeOrder.listed_valid
    (fun _ => Except.ok "{}") ⟨petsDoc⟩ ⟨petsDocShared⟩
    (List.Forall₂.cons ⟨rfl, rfl⟩ List.Forall₂.nil) ⟨"getPet"⟩, by decide, by decide⟩

/-- C11: over any filesystem state, given a filesystem path (an input that
is not a URL: it starts neither with `http://` nor with `https://`) that is a
directory, `resolveOpenAPIPath` returns the directory joined with
`openapi.yaml` whenever that file exists (also when `openapi.yml` exists too);
returns the directory joined with `openapi.yml` when `openapi.yaml` does not
exist and `openapi.yml` does; and fails with an error, returning the empty
string, exactly when neither exists. -/
theorem C11_directory_probe_order (stat : String → Except String FileInfo)
    (join : String → String → String) (path : String) (info : FileInfo)
    (hhttp : HasPrefix path "http://" = false) (hhttps : HasPrefix path "https://" = false)
    (hstat : stat path = Except.ok info) (hdir : info.IsDir = true) :
    (statOK stat (join path "openapi.yaml") = true →
      (resolveOpenAPIPath stat join path).path = join path "openapi.yaml" ∧
      (resolveOpenAPIPath stat join path).err = none) ∧
    (statOK stat (join path "openapi.yaml") = false →
      statOK stat (join path "openapi.yml") = true →
      (resolveOpenAPIPath stat join path).path = join path "openapi.yml" ∧
      (resolveOpenAPIPath stat join path).err = none) ∧
    ((resolveOpenAPIPath stat join path).err ≠ none ↔
      statOK stat (join path "openapi.yaml") = false ∧
      statOK stat (join path "openapi.yml") = false) ∧
    ((resolveOpenAPIPath stat join path).err ≠ none →
      (resolveOpenAPIPath stat join path).path = "" ∧
      (resolveOpenAPIPath stat join path).err =
        some ("openapi.yaml or openapi.yml not found in directory: " ++ path)) := by
  unfold resolveOpenAPIPath statOK
  simp only [hhttp, hhttps, Bool.or_self, Bool.false_eq_true, if_false, hstat, hdir, if_true]
  cases h1 : stat (join path "openapi.yaml") with
  | ok i1 => simp
  | error e1 =>
    cases h2 : stat (join path "openapi.yml") with
    | ok i2 => simp
    | error e2 => simp

/-- C11, witness: in the sample state, `legacy` is a directory that holds
`openapi.yml` only. -/
theorem C11_directory_probe_order_witness :
    ((statOK sampleStat (sampleJoin "legacy" "openapi.yaml") = true →
      (resolveOpenAPIPath sampleStat sampleJoin "legacy").path =
        sampleJoin "legacy" "openapi.yaml" ∧
      (resolveOpenAPIPath sampleStat sampleJoin "legacy").err = none) ∧
    (statOK sampleStat (sampleJoin "legacy" "openapi.yaml") = false →
      statOK sampleStat (sampleJoin "legacy" "openapi.yml") = true →
      (resolveOpenAPIPath sampleStat sampleJoin "legacy").path =
        sampleJoin "legacy" "openapi.yml" ∧
      (resolveOpenAPIPath sampleStat sampleJoin "legacy").err = none) ∧
    ((resolveOpenAPIPath sampleStat sampleJoin "legacy").err ≠ none ↔
      statOK sampleStat (sampleJoin "legacy" "openapi.yaml") = false ∧
      statOK sampleStat (sampleJoin "legacy" "openapi.yml") = false) ∧
    ((resolveOpenAPIPath sampleStat sampleJoin "legacy").err ≠ none →
      (resolveOpenAPIPath sampleStat sampleJoin "legacy").path = "" ∧
      (resolveOpenAPIPath sampleStat sampleJoin "legacy").err =
        some ("openapi.yaml or openapi.yml not found in directory: " ++ "legacy"))) ∧
    resolveOpenAPIPath sampleStat sampleJoin "specs" =
      ⟨"specs/openapi.yaml", none, ["specs", "specs/openapi.yaml"]⟩ ∧
    resolveOpenAPIPath sampleStat sampleJoin "legacy" =
      ⟨"legacy/openapi.yml", none, ["legacy", "legacy/openapi.yaml", "legacy/openapi.yml"]⟩ ∧
    resolveOpenAPIPath sampleStat sampleJoin "bare" =
      ⟨"", some "openapi.yaml or openapi.yml not found in directory: bare",
        ["bare", "bare/openapi.yaml", "bare/openapi.yml"]⟩ :=
  ⟨C11_directory_probe_order sampleStat sampleJoin "legacy" ⟨true⟩ (by decide) (by decide)
    rfl rfl, by decide, by decide, by decide⟩

/-- C12, as amended: for every input that is a URL (starts with `http://` or
`https://`) or names an existing filesystem entry that is not a directory,
`resolveOpenAPIPath` returns the input string unchanged and no error, and it
passes no other name than the input to `os.Stat` (none at all for a URL): it
does not probe for `openapi.yaml` or `openapi.yml`. -/
theorem C12_direct_path_unchanged (stat : String → Except String FileInfo)
    (join : String → String → String) (path : String)
    (h : (HasPrefix path "http://" = true ∨ HasPrefix path "https://" = true) ∨
      ∃ info, stat path = Except.ok info ∧ info.IsDir = false) :
    (resolveOpenAPIPath stat join path).path = path ∧
    (resolveOpenAPIPath stat join path).err = none ∧
    ((resolveOpenAPIPath stat join path).stats = [] ∨
      (resolveOpenAPIPath stat join path).stats = [path]) ∧
    ((HasPrefix path "http://" = true ∨ HasPrefix path "https://" = true) →
      (resolveOpenAPIPath stat join path).stats = []) := by
  by_cases hurl : (HasPrefix path "http://" || HasPrefix path "https://") = true
  · have hres : resolveOpenAPIPath stat join path = ⟨path, none, []⟩ := by
      unfold resolveOpenAPIPath
      rw [if_pos hurl]
    rw [hres]
    exact ⟨rfl, rfl, Or.inl rfl, fun _ => rfl⟩
  · rcases h with h | ⟨info, hstat, hdir⟩
    · exact absurd (by simpa [Bool.or_eq_true] using h) hurl
    · have hres : resolveOpenAPIPath stat join path = ⟨path, none, [path]⟩ := by
        unfold resolveOpenAPIPath
        rw [if_neg hurl]
        simp only [hstat, hdir, Bool.false_eq_true, if_false]
      rw [hres]
      refine ⟨rfl, rfl, Or.inr rfl, ?_⟩
      intro h'
      exact absurd (by simpa [Bool.or_eq_true] using h') hurl

/-- C12, witness: the file `api.yaml` of the sample state. -/
theorem C12_direct_path_unchanged_witness :
    ((resolveOpenAPIPath sampleStat sampleJoin "api.yaml").path = "api.yaml" ∧
    (resolveOpenAPIPath sampleStat sampleJoin "api.yaml").err = none ∧
    ((resolveOpenAPIPath sampleStat sampleJoin "api.yaml").stats = [] ∨
      (resolveOpenAPIPath sampleStat sampleJoin "api.yaml").stats = ["api.yaml"]) ∧
    ((HasPrefix "api.yaml" "http://" = true ∨ HasPrefix "api.yaml" "https://" = true) →
      (resolveOpenAPIPath sampleStat sampleJoin "api.yaml").stats = [])) ∧
    resolveOpenAPIPath sampleStat sampleJoin "https://example.com/openapi.yaml" =
      ⟨"https://example.com/openapi.yaml", none, []⟩ :=
  ⟨C12_direct_path_unchanged sampleStat sampleJoin "api.yaml"
    (Or.inr ⟨⟨false⟩, rfl, rfl⟩), by decide⟩

/-- C12, counterexample: in the sample state `missing.yaml` is not a URL and
is not a directory (nothing has that name), and the call returns the empty
string and an error, not the input. -/
theorem C12_counterexample :
    HasPrefix "missing.yaml" "http://" = false ∧
    HasPrefix "missing.yaml" "https://" = false ∧
    sampleStat "missing.yaml" =
      Except.error "stat missing.yaml: no such file or directory" ∧
    resolveOpenAPIPath sampleStat sampleJoin "missing.yaml" =
      ⟨"", some "path does not exist: stat missing.yaml: no such file or directory",
        ["missing.yaml"]⟩ :=
  ⟨by decide, by decide, rfl, by decide⟩

/-- C13: on a match whose projection is encoded, the text payload is the
two-space-indented JSON text of the projection, a top-level object whose keys
are among `operation_id`, `method`, `path`, `summary`, `description`,
`parameters`, `request_body`, `responses` (in that order and no other key):
it always has `operation_id`, `method` and `path`, and it has each of the
other five exactly when the field of the projection has content (a non-empty
string, a non-empty sequence, a present request body, a non-empty mapping). -/
theorem C13_payload_top_level_keys (r : RangeOrder σ μ ρ) (enc : Encoders σ μ ρ)
    (s : OpenAPIServer σ μ ρ) (params : GetAPIDetailsParams) (d : APIDetails σ μ ρ)
    (text : String) (hmatch : GetAPIDetails.apiDetails r s params = some d)
    (henc : MarshalIndent enc d = Except.ok text) :
    GetAPIDetails r (MarshalIndent enc) s params = (some ⟨[⟨text⟩], false⟩, none) ∧
    ∃ members : List (String × String),
      text = indentObject enc.quote 0 members ∧
      (members.map Prod.fst).Sublist apiDetailsKeys ∧
      ("operation_id", enc.quote d.OperationID) ∈ members ∧
      ("method", enc.quote d.Method) ∈ members ∧
      ("path", enc.quote d.Path) ∈ members ∧
      ("summary" ∈ members.map Prod.fst ↔ d.Summary ≠ "") ∧
      ("description" ∈ members.map Prod.fst ↔ d.Description ≠ "") ∧
      ("parameters" ∈ members.map Prod.fst ↔ d.Parameters.getD [] ≠ []) ∧
      ("request_body" ∈ members.map Prod.fst ↔ d.RequestBody.isSome = true) ∧
      ("responses" ∈ members.map Prod.fst ↔ (d.Responses.map GoMap.entries).getD [] ≠ []) := by
  have hres := GetAPIDetails_of_apiDetails r (MarshalIndent enc) s params d hmatch
  rw [henc] at hres
  refine ⟨hres, ?_⟩
  unfold MarshalIndent at henc
  cases hm : apiDetailsMembers enc d with
  | error err => rw [hm] at henc; cases henc
  | ok members =>
    rw [hm] at henc
    simp only [Except.ok.injEq] at henc
    unfold apiDetailsMembers at hm
    cases hp : encodeParameters enc 1 d.Parameters with
    | error err => rw [hp] at hm; cases hm
    | ok parameters =>
      cases hb : encodeRequestBody enc 1 d.RequestBody with
      | error err => rw [hp, hb] at hm; cases hm
      | ok requestBody =>
        cases hs : encodeMap enc.quote enc.response 1 d.Responses with
        | error err => rw [hp, hb, hs] at hm; cases hm
        | ok responses =>
          rw [hp, hb, hs] at hm
          simp only [Except.ok.injEq] at hm
          have hkeys := keys_of_members enc.quote (enc.quote d.OperationID)
            (enc.quote d.Method) (enc.quote d.Path) d.Summary d.Description parameters
            requestBody responses
          simp only at hkeys
          rw [hm] at hkeys
          obtain ⟨hsub, _, _, _, hsum, hdesc, hpar, hbody, hresp⟩ := hkeys
          refine ⟨members, henc.symm, hsub, ?_, ?_, ?_, hsum, hdesc,
            hpar.trans (encodeParameters_isSome hp), hbody.trans (encodeRequestBody_isSome hb),
            hresp.trans (encodeMap_isSome hs)⟩
          · rw [← hm]; simp
          · rw [← hm]; simp
          · rw [← hm]; simp

/-- C13, witness: `getPet` in the pets document with the sample encoders; the
payload has the three fixed keys, `summary`, `description` and `parameters`,
and neither `request_body` nor `responses`. -/
theorem C13_payload_top_level_keys_witness :
    GetAPIDetails RangeOrder.listed (MarshalIndent sampleEncoders) ⟨petsDoc⟩ ⟨"getPet"⟩ =
      (some ⟨[⟨"\x7b\n  \"operation_id\": \"getPet\",\n  \"method\": \"GET\",\n" ++
        "  \"path\": \"/pets/\x7bid\x7d\",\n  \"summary\": \"Find a pet\",\n" ++
        "  \"description\": \"Returns one pet\",\n  \"parameters\": [\n    \x7b\n" ++
        "      \"name\": \"id\",\n      \"in\": \"path\",\n      \"required\": true\n" ++
        "    \x7d\n  ]\n\x7d"⟩], false⟩, none) ∧
    ∃ members : List (String × String),
      "\x7b\n  \"operation_id\": \"getPet\",\n  \"method\": \"GET\",\n" ++
        "  \"path\": \"/pets/\x7bid\x7d\",\n  \"summary\": \"Find a pet\",\n" ++
        "  \"description\": \"Returns one pet\",\n  \"parameters\": [\n    \x7b\n" ++
        "      \"name\": \"id\",\n      \"in\": \"path\",\n      \"required\": true\n" ++
        "    \x7d\n  ]\n\x7d" = indentObject sampleEncoders.quote 0 members ∧
      (members.map Prod.fst).Sublist apiDetailsKeys ∧
      ("operation_id", sampleEncoders.quote "getPet") ∈ members ∧
      ("method", sampleEncoders.quote "GET") ∈ members ∧
      ("path", sampleEncoders.quote "/pets/{id}") ∈ members ∧
      ("summary" ∈ members.map Prod.fst ↔ "Find a pet" ≠ "") ∧
      ("description" ∈ members.map Prod.fst ↔ "Returns one pet" ≠ "") ∧
      ("parameters" ∈ members.map Prod.fst ↔
        (projectParameters getPet.Parameters).getD [] ≠ []) ∧
      ("request_body" ∈ members.map Prod.fst ↔
        (none : Option (RequestBodyDetails String)).isSome = true) ∧
      ("responses" ∈ members.map Prod.fst ↔
        ((none : Option (GoMap String)).map GoMap.entries).getD [] ≠ []) :=
  C13_payload_top_level_keys RangeOrder.listed sampleEncoders ⟨petsDoc⟩ ⟨"getPet"⟩
    (project RangeOrder.listed "/pets/{id}" "GET" getPet) _ (by decide) rfl

end Claims

end McpOpenAPI
